import Mathlib

/-!
Verification of the pr-review-agent analysis pipeline.

The development shallowly embeds the pipeline of this repository:

* `app/services/cache.py` — `build_cache_key`;
* `app/agent/reviewer.py` — `_parse_json_threaded` (the tiered response
  parser), `_heuristic_review`, `_call_ollama` / `_call_openai` (classified
  provider outcomes), `analyze_pr_with_agent` (issue normalisation and
  result assembly);
* `app/tasks.py` — `analyze_pr_task` (the job orchestrator);
* `app/main.py` — `analyze_multiple_prs` (the bounded batch surface).

Python dictionaries produced and consumed by the pipeline are embedded as
the inductive `JValue`.  The stdlib functions the source leans on
(`json.loads`, `json.dumps` on such values, `str.strip`, `str.split`,
`str.splitlines`, `int(...)`, substring tests, truthiness) are modelled
over character lists, structurally, so every definition is executable and
reduces inside the kernel.  Known modelling bounds, each noted where it
occurs: JSON numbers are integers (float literals, NaN and Infinity are
outside the model), `int(...)` is sign-plus-decimal-digits (no underscore
separators and no non-ASCII digits), whitespace and case folding are the
ASCII fragments of their Python counterparts, and a lone surrogate escape
makes the modelled `json.loads` fail where CPython would build a lone
surrogate, a value a Lean `Char` cannot hold.  I/O boundaries (the GitHub
fetch, the Redis calls, the chat completions) are supplied by environment
records carrying each call outcome, exactly at the points the source
performs the call.
-/

/-! ## Character and list primitives shared by the embeddings -/

/-- Whitespace recognised by the JSON scanner of `json.loads`:
space, tab, line feed, carriage return. -/
def jwsChar (c : Char) : Bool :=
  c == ' ' || c == '\t' || c == '\n' || c == '\r'

/-- Whitespace stripped by Python `str.strip()` and matched by the regex
class `\s` (ASCII fragment; the full Python classes add some Unicode
spaces which never appear in the texts this pipeline handles). -/
def pwsChar (c : Char) : Bool :=
  c == ' ' || c == '\t' || c == '\n' || c == '\r' || c == '\x0b' || c == '\x0c'

/-- Decimal digit test. -/
def digitCh (c : Char) : Bool :=
  '0' ≤ c && c ≤ '9'

/-- ASCII lower-casing of one character, as `str.lower()` acts on ASCII. -/
def asciiLower (c : Char) : Char :=
  if 'A' ≤ c && c ≤ 'Z' then Char.ofNat (c.toNat + 32) else c

/-- Lower-case a character list. -/
def lowerL (l : List Char) : List Char := l.map asciiLower

/-- Lower-case a string, as the source applies `.lower()`. -/
def lowerStr (s : String) : String := ⟨lowerL s.data⟩

/-- Test whether `pat` is an initial segment of `l` (`str.startswith`). -/
def startsWithL : List Char → List Char → Bool
  | [], _ => true
  | _ :: _, [] => false
  | p :: ps, c :: cs => p == c && startsWithL ps cs

/-- Test whether `pat` is a final segment of `l` (`str.endswith`). -/
def endsWithL (pat l : List Char) : Bool :=
  startsWithL pat.reverse l.reverse

/-- Substring test, the Python `pat in l` operator on strings. -/
def containsSub (pat : List Char) : List Char → Bool
  | [] => pat.isEmpty
  | c :: cs => startsWithL pat (c :: cs) || containsSub pat cs

/-- Substring test on strings. -/
def containsSubStr (pat s : String) : Bool := containsSub pat.data s.data

/-- Strip `str.strip()` whitespace from both ends of a character list. -/
def pyStrip (l : List Char) : List Char :=
  ((l.dropWhile pwsChar).reverse.dropWhile pwsChar).reverse

/-- Split on a separator character, Python `str.split(sep)`: the result is
never empty and keeps empty segments. -/
def splitOnCh (sep : Char) : List Char → List (List Char)
  | [] => [[]]
  | c :: tl =>
    if c == sep then [] :: splitOnCh sep tl
    else
      match splitOnCh sep tl with
      | [] => [[c]]
      | h :: t => (c :: h) :: t

/-- Last segment of a split, the `[-1]` subscript the source applies to
`line.split(':')`; a split result is never empty. -/
def lastSeg (l : List (List Char)) : List Char := l.getLastD []

/-- Line-break characters of `str.splitlines` (the BMP set CPython uses). -/
def lineBreakCh (c : Char) : Bool :=
  c == '\n' || c == '\r' || c == '\x0b' || c == '\x0c' ||
  c == '\x1c' || c == '\x1d' || c == '\x1e' || c == '\x85' ||
  c == '\u2028' || c == '\u2029'

/-- Python `str.splitlines()`: split at line breaks, treating CR LF as one
break, and emit no trailing empty line. -/
def splitlinesL : List Char → List (List Char)
  | [] => []
  | '\r' :: '\n' :: tl => [] :: splitlinesL tl
  | c :: tl =>
    if lineBreakCh c then [] :: splitlinesL tl
    else
      match splitlinesL tl with
      | [] => [[c]]
      | h :: t => (c :: h) :: t

/-- Numeric value of a digit run. -/
def digitsVal (ds : List Char) : Nat :=
  ds.foldl (fun a c => a * 10 + (c.toNat - 48)) 0

/-- Python `int(text)` on a string: strip whitespace, optional sign, then a
nonempty all-digit body, else a `ValueError` (`none`).  Underscore digit
grouping and non-ASCII digits, which CPython also accepts, are outside the
model; the pipeline only meets plain decimal line numbers. -/
def pyInt (l : List Char) : Option Int :=
  match pyStrip l with
  | '-' :: ds => if ds ≠ [] ∧ ds.all digitCh then some (-(digitsVal ds : Int)) else none
  | '+' :: ds => if ds ≠ [] ∧ ds.all digitCh then some (digitsVal ds : Int) else none
  | ds => if ds ≠ [] ∧ ds.all digitCh then some (digitsVal ds : Int) else none

/-- Digit character of a value below ten. -/
def digitCharOf (k : Nat) : Char := Char.ofNat (48 + k)

/-- Decimal digits, fuelled so the kernel can evaluate it; any fuel above
the value itself is enough, and `natChars_eq` below recovers the clean
recursion. -/
def natCharsF : Nat → Nat → List Char → List Char
  | 0, n, acc => digitCharOf n :: acc
  | fuel + 1, n, acc =>
    if n < 10 then digitCharOf n :: acc
    else natCharsF fuel (n / 10) (digitCharOf (n % 10) :: acc)

/-- Decimal digits of a natural number, most significant first, pushed in
front of `acc`. -/
def natChars (n : Nat) (acc : List Char) : List Char := natCharsF (n + 1) n acc

theorem natCharsF_fuel_free (n : Nat) : ∀ f g acc, n < f → n < g →
    natCharsF f n acc = natCharsF g n acc := by
  induction n using Nat.strong_induction_on with
  | _ n ih =>
    intro f g acc hf hg
    match f, g with
    | f + 1, g + 1 =>
      by_cases h10 : n < 10
      · simp [natCharsF, h10]
      · have hlt : n / 10 < n := Nat.div_lt_self (by omega) (by omega)
        simp only [natCharsF, if_neg h10]
        exact ih (n / 10) hlt f g _ (by omega) (by omega)

/-- Clean unfolding of `natChars`. -/
theorem natChars_eq (n : Nat) (acc : List Char) :
    natChars n acc =
      if n < 10 then digitCharOf n :: acc
      else natChars (n / 10) (digitCharOf (n % 10) :: acc) := by
  by_cases h10 : n < 10
  · simp [natChars, natCharsF, h10]
  · have hlt : n / 10 < n := Nat.div_lt_self (by omega) (by omega)
    simp only [natChars, natCharsF, if_neg h10]
    exact natCharsF_fuel_free (n / 10) n (n / 10 + 1) _ (by omega) (by omega)

/-- Decimal rendering of an integer as `str` / `json.dumps` print it. -/
def intChars (i : Int) : List Char :=
  if i < 0 then '-' :: natChars i.natAbs [] else natChars i.natAbs []

/-! ## JSON values

`JValue` stands for the Python objects flowing through the pipeline:
`None`, booleans, integers, strings, lists and dictionaries.  Dictionary
entries keep their insertion order, matching CPython; duplicate keys can
only arise from a JSON text with repeated keys, and lookups take the last
binding exactly as the CPython parser (last wins) would have left it. -/

inductive JValue where
  | jnull
  | jbool (b : Bool)
  | jnum (n : Int)
  | jstr (s : String)
  | jarr (xs : List JValue)
  | jobj (kvs : List (String × JValue))
deriving Repr

/-- Python truthiness of a value, driving the `if not parsed:` and
`... or []` branches of the source. -/
def jTruthy : JValue → Bool
  | .jnull => false
  | .jbool b => b
  | .jnum n => n != 0
  | .jstr s => !s.isEmpty
  | .jarr xs => !xs.isEmpty
  | .jobj kvs => !kvs.isEmpty

/-- Dictionary lookup with the last binding winning, the view CPython has
after building a dict. -/
def lookupLastJ : List (String × JValue) → String → Option JValue
  | [], _ => none
  | (k, v) :: tl, key =>
    match lookupLastJ tl key with
    | some r => some r
    | none => if k == key then some v else none

/-- Dictionary assignment `d[key] = v`: update an existing binding in
place, else append. -/
def dictSet : List (String × JValue) → String → JValue → List (String × JValue)
  | [], key, v => [(key, v)]
  | (k, w) :: tl, key, v =>
    if k == key then (key, v) :: tl else (k, w) :: dictSet tl key v

/-- Python `d.get(key)` seen through an embedded value: an `AttributeError`
for anything that is not a dictionary. -/
def pyGet (v : JValue) (key : String) : Except String (Option JValue) :=
  match v with
  | .jobj kvs => .ok (lookupLastJ kvs key)
  | _ => .error "AttributeError: no attribute get"

/-- Python iteration over an embedded value, as the `for item in ...` loop
uses it: lists yield elements, strings their characters, dictionaries
their keys; the rest raise `TypeError`. -/
def pyIter : JValue → Except String (List JValue)
  | .jarr xs => .ok xs
  | .jstr s => .ok (s.data.map fun c => .jstr ⟨[c]⟩)
  | .jobj kvs => .ok (kvs.map fun kv => .jstr kv.1)
  | _ => .error "TypeError: not iterable"

/-! ## The modelled `json.dumps`

Compact separators; `ensure_ascii` is off, so characters at or above
U+0020 other than the quote and the backslash pass through unescaped.
The pipeline never inspects the spelled text beyond reparsing it, for
which any faithful JSON writer is interchangeable. -/

/-- JSON escape of one character inside a string literal. -/
def jsonEscCh (c : Char) : List Char :=
  if c == '"' then ['\\', '"']
  else if c == '\\' then ['\\', '\\']
  else if c == '\n' then ['\\', 'n']
  else if c == '\r' then ['\\', 'r']
  else if c == '\t' then ['\\', 't']
  else if c == '\x08' then ['\\', 'b']
  else if c == '\x0c' then ['\\', 'f']
  else if c.toNat < 32 then
    ['\\', 'u', '0', '0', digitCharOf (c.toNat / 16),
     if c.toNat % 16 < 10 then digitCharOf (c.toNat % 16)
     else Char.ofNat (97 + (c.toNat % 16 - 10))]
  else [c]

/-- JSON escape of a character list. -/
def jsonEscL : List Char → List Char
  | [] => []
  | c :: tl => jsonEscCh c ++ jsonEscL tl

/-- Spelled form of a JSON string literal, quotes included. -/
def jsonStrL (s : String) : List Char :=
  '"' :: (jsonEscL s.data ++ ['"'])

mutual
/-- Spell a value as JSON text (characters). -/
def jdumpV : JValue → List Char
  | .jnull => "null".data
  | .jbool true => "true".data
  | .jbool false => "false".data
  | .jnum n => intChars n
  | .jstr s => jsonStrL s
  | .jarr xs => '[' :: (jdumpItems xs ++ [']'])
  | .jobj kvs => '\x7b' :: (jdumpPairs kvs ++ ['\x7d'])
/-- Spell array elements, comma separated. -/
def jdumpItems : List JValue → List Char
  | [] => []
  | [x] => jdumpV x
  | x :: y :: tl => jdumpV x ++ ',' :: jdumpItems (y :: tl)
/-- Spell object entries, comma separated, each `key:value`. -/
def jdumpPairs : List (String × JValue) → List Char
  | [] => []
  | [(k, v)] => jsonStrL k ++ ':' :: jdumpV v
  | (k, v) :: p :: tl => jsonStrL k ++ ':' :: jdumpV v ++ ',' :: jdumpPairs (p :: tl)
end

/-- Spell a value as a JSON string, the modelled `json.dumps`. -/
def jsonDumps (v : JValue) : String := ⟨jdumpV v⟩

/-! ## The modelled `json.loads`

A strict recursive-descent reader over the character list, totalised by a
fuel argument; the callers hand it one more than the input length, which
the round-trip theorems below show is always enough for spelled values.
Failure (`none`) stands for `json.JSONDecodeError`. -/

/-- Hexadecimal value of one character, if any. -/
def hexValCh (c : Char) : Option Nat :=
  if '0' ≤ c && c ≤ '9' then some (c.toNat - 48)
  else if 'a' ≤ c && c ≤ 'f' then some (c.toNat - 87)
  else if 'A' ≤ c && c ≤ 'F' then some (c.toNat - 55)
  else none

/-- Value of a four-digit hexadecimal escape. -/
def hexQuad (a b c d : Char) : Option Nat := do
  let va ← hexValCh a
  let vb ← hexValCh b
  let vc ← hexValCh c
  let vd ← hexValCh d
  pure (((va * 16 + vb) * 16 + vc) * 16 + vd)

/-- Decode the body of a `\\uXXXX` escape (the four hex digits and, for a
high surrogate, the paired second escape).  Strict about lone surrogates:
CPython would build a lone-surrogate `str`, which no Lean `Char` can
carry — the pipeline never feeds one. -/
def readUEscBody : List Char → Option (Char × List Char)
  | a :: b :: c :: d :: rest =>
    (match hexQuad a b c d with
     | none => none
     | some n =>
       if 0xd800 ≤ n ∧ n ≤ 0xdbff then
         match rest with
         | '\\' :: 'u' :: a2 :: b2 :: c2 :: d2 :: rest2 =>
           (match hexQuad a2 b2 c2 d2 with
            | none => none
            | some m =>
              if 0xdc00 ≤ m ∧ m ≤ 0xdfff then
                some (Char.ofNat (0x10000 + (n - 0xd800) * 0x400 + (m - 0xdc00)), rest2)
              else none)
         | _ => none
       else if 0xdc00 ≤ n ∧ n ≤ 0xdfff then none
       else some (Char.ofNat n, rest))
  | _ => none

/-- Decode one escape after the backslash: a unicode escape or one of the
named ones. -/
def readEsc : List Char → Option (Char × List Char)
  | [] => none
  | e :: rest =>
    if e == 'u' then readUEscBody rest
    else if e == '"' then some ('"', rest)
    else if e == '\\' then some ('\\', rest)
    else if e == '/' then some ('/', rest)
    else if e == 'n' then some ('\n', rest)
    else if e == 'r' then some ('\r', rest)
    else if e == 't' then some ('\t', rest)
    else if e == 'b' then some ('\x08', rest)
    else if e == 'f' then some ('\x0c', rest)
    else none

/-- Read a JSON string body after the opening quote, fuelled (each step
consumes at least one character, so one unit of fuel per remaining
character is always enough).  Strict mode: raw control characters are
refused. -/
def jreadStrF : Nat → List Char → List Char → Option (String × List Char)
  | 0, _, _ => none
  | fuel + 1, acc, l =>
    match l with
    | [] => none
    | c :: rest =>
      if c == '"' then some (⟨acc.reverse⟩, rest)
      else if c == '\\' then
        match readEsc rest with
        | none => none
        | some (ch, rest2) => jreadStrF fuel (ch :: acc) rest2
      else if c.toNat < 32 then none
      else jreadStrF fuel (c :: acc) rest

/-- Read a JSON string body after the opening quote. -/
def jreadStr (acc : List Char) (l : List Char) : Option (String × List Char) :=
  jreadStrF (l.length + 1) acc l

/-- Longest digit run at the front of the input, and the remainder. -/
def digitSpan : List Char → List Char × List Char
  | [] => ([], [])
  | c :: tl =>
    if digitCh c then
      match digitSpan tl with
      | (ds, r) => (c :: ds, r)
    else ([], c :: tl)

/-- Read an unsigned JSON number body: a bare zero, or a digit run with
no leading zero. -/
def jreadNumBody : List Char → Option (Int × List Char)
  | [] => none
  | c :: rest =>
    if c == '0' then some (0, rest)
    else if digitCh c then
      match digitSpan (c :: rest) with
      | (ds, r) => some ((digitsVal ds : Int), r)
    else none

/-- Read a JSON number.  Integer grammar only (`-?(0|[1-9][0-9]*)`);
fraction and exponent parts, `NaN` and `Infinity` are floats, which the
model leaves out, so such texts fail here where CPython builds a float. -/
def jreadNum (l : List Char) : Option (Int × List Char) :=
  match l with
  | [] => none
  | c :: tl =>
    if c == '-' then (jreadNumBody tl).map (fun p => (-p.1, p.2))
    else jreadNumBody (c :: tl)

mutual
/-- Read one JSON value after skipping whitespace. -/
def jreadV : Nat → List Char → Option (JValue × List Char)
  | 0, _ => none
  | fuel + 1, l =>
    match l.dropWhile jwsChar with
    | [] => none
    | c :: rest =>
      if c == '"' then
        match jreadStr [] rest with
        | some (s, r) => some (.jstr s, r)
        | none => none
      else if c == '[' then
        (let other := rest.dropWhile jwsChar
         if other.head? = some ']' then some (.jarr [], other.tail)
         else
           match jreadItems fuel other with
           | some (vs, r) => some (.jarr vs, r)
           | none => none)
      else if c == '\x7b' then
        (let other := rest.dropWhile jwsChar
         if other.head? = some '\x7d' then some (.jobj [], other.tail)
         else
           match jreadPairs fuel other with
           | some (ps, r) => some (.jobj ps, r)
           | none => none)
      else if c == 'n' then
        (if startsWithL "ull".data rest then some (.jnull, rest.drop 3) else none)
      else if c == 't' then
        (if startsWithL "rue".data rest then some (.jbool true, rest.drop 3) else none)
      else if c == 'f' then
        (if startsWithL "alse".data rest then some (.jbool false, rest.drop 4) else none)
      else if c == '-' || digitCh c then
        match jreadNum (c :: rest) with
        | some (n, r) => some (.jnum n, r)
        | none => none
      else none
/-- Read the elements of a nonempty array, up to and past the closing
bracket. -/
def jreadItems : Nat → List Char → Option (List JValue × List Char)
  | 0, _ => none
  | fuel + 1, l =>
    match jreadV fuel l with
    | none => none
    | some (v, r) =>
      match r.dropWhile jwsChar with
      | [] => none
      | c :: r2 =>
        if c == ',' then
          match jreadItems fuel r2 with
          | some (vs, r3) => some (v :: vs, r3)
          | none => none
        else if c == ']' then some ([v], r2)
        else none
/-- Read the entries of a nonempty object, up to and past the closing
brace. -/
def jreadPairs : Nat → List Char → Option (List (String × JValue) × List Char)
  | 0, _ => none
  | fuel + 1, l =>
    match l.dropWhile jwsChar with
    | [] => none
    | c :: r =>
      if c == '"' then
        match jreadStr [] r with
        | none => none
        | some (k, r1) =>
          match r1.dropWhile jwsChar with
          | [] => none
          | c1 :: r2 =>
            if c1 == ':' then
              match jreadV fuel r2 with
              | none => none
              | some (v, r3) =>
                match r3.dropWhile jwsChar with
                | [] => none
                | c2 :: r4 =>
                  if c2 == ',' then
                    match jreadPairs fuel r4 with
                    | some (ps, r5) => some ((k, v) :: ps, r5)
                    | none => none
                  else if c2 == '\x7d' then some ([(k, v)], r4)
                  else none
            else none
      else none
end

/-- Modelled `json.loads` over a character list: one value, then only
whitespace; anything else is a decode error. -/
def jsonLoadsL (l : List Char) : Option JValue :=
  match jreadV (l.length + 1) l with
  | some (v, r) => if r.dropWhile jwsChar = [] then some v else none
  | none => none

/-- Modelled `json.loads` on a string. -/
def jsonLoads (s : String) : Option JValue := jsonLoadsL s.data

example : jsonLoads "\x7b\"summary\": \"ok\", \"issues\": []\x7d" =
    some (.jobj [("summary", .jstr "ok"), ("issues", .jarr [])]) := rfl

example : jsonLoads "\x7b\x7d" = some (.jobj []) := rfl

example : jsonLoads "[1, -20, \"a\\u007b\", null, true]" =
    some (.jarr [.jnum 1, .jnum (-20), .jstr "a\x7b", .jnull, .jbool true]) := rfl

example : jsonLoads "" = none := rfl

example : jsonLoads "01" = none := rfl

example : jsonDumps (.jobj [("summary", .jstr "a\nb"), ("issues", .jarr [.jnum 5])]) =
    "\x7b\"summary\":\"a\\nb\",\"issues\":[5]\x7d" := by decide

/-! ## Schema types (`app/schemas.py`)

`AnalysisIssue` and `AnalysisResult` are pydantic models; the two
`Literal` fields become inductives, so a constructed issue carries an
in-enumeration severity and category by type.  Construction attempts with
arbitrary payloads go through `strictIssue` below, which models the
validator. -/

/-- Allowed severities of `AnalysisIssue.severity`. -/
inductive Severity where
  | info
  | warning
  | error
deriving DecidableEq, Repr

/-- Spelling of a severity. -/
def Severity.toStr : Severity → String
  | .info => "info"
  | .warning => "warning"
  | .error => "error"

/-- Validation of a severity string, the pydantic `Literal` check. -/
def severityOfString (s : String) : Option Severity :=
  if s == "info" then some .info
  else if s == "warning" then some .warning
  else if s == "error" then some .error
  else none

/-- Allowed categories of `AnalysisIssue.category`. -/
inductive Category where
  | style
  | bug
  | performance
  | best_practice
deriving DecidableEq, Repr

/-- Spelling of a category. -/
def Category.toStr : Category → String
  | .style => "style"
  | .bug => "bug"
  | .performance => "performance"
  | .best_practice => "best_practice"

/-- Validation of a category string, the pydantic `Literal` check. -/
def categoryOfString (s : String) : Option Category :=
  if s == "style" then some .style
  else if s == "bug" then some .bug
  else if s == "performance" then some .performance
  else if s == "best_practice" then some .best_practice
  else none

/-- One review finding, `app/schemas.py` `AnalysisIssue`. -/
structure AnalysisIssue where
  file_path : String
  line : Option Int
  severity : Severity
  category : Category
  message : String
  suggestion : Option String
deriving DecidableEq, Repr

/-- The unit of persisted output, `app/schemas.py` `AnalysisResult`; the
`model_info` values the pipeline stores are all strings. -/
structure AnalysisResult where
  repo_url : String
  pr_number : Int
  head_sha : Option String
  issues : List AnalysisIssue
  summary : String
  model_info : List (String × String)
deriving DecidableEq, Repr

/-- Embed an optional integer as the Python value it dumps to. -/
def optIntJson : Option Int → JValue
  | none => .jnull
  | some n => .jnum n

/-- Embed an optional string as the Python value it dumps to. -/
def optStrJson : Option String → JValue
  | none => .jnull
  | some s => .jstr s

/-- The dictionary `issue.model_dump()` yields, keys in field order. -/
def issueToJson (i : AnalysisIssue) : JValue :=
  .jobj [("file_path", .jstr i.file_path), ("line", optIntJson i.line),
         ("severity", .jstr i.severity.toStr), ("category", .jstr i.category.toStr),
         ("message", .jstr i.message), ("suggestion", optStrJson i.suggestion)]

/-- The dictionary `analysis_result.model_dump()` yields. -/
def resultToJson (r : AnalysisResult) : JValue :=
  .jobj [("repo_url", .jstr r.repo_url), ("pr_number", .jnum r.pr_number),
         ("head_sha", optStrJson r.head_sha),
         ("issues", .jarr (r.issues.map issueToJson)),
         ("summary", .jstr r.summary),
         ("model_info", .jobj (r.model_info.map fun kv => (kv.1, .jstr kv.2)))]

/-- A changed file of the snapshot, `app/services/github.py` `PRFile`. -/
structure PRFile where
  filename : String
  status : String
  additions : Int
  deletions : Int
  changes : Int
  patch : Option String
  raw_url : Option String
deriving DecidableEq, Repr

/-- A fetched snapshot, `app/services/github.py` `PRData`. -/
structure PRData where
  owner : String
  repo : String
  number : Int
  title : String
  body : Option String
  head_sha : String
  base_sha : String
  files : List PRFile
  diff : String
deriving DecidableEq, Repr

/-! ## Cache key (`app/services/cache.py`) -/

/-- The deterministic cache key: `build_cache_key` interpolates the
namespace, the repository URL, the PR number and the head commit, with
`"no-sha"` standing in for a falsy (`None` or empty) commit id. -/
def build_cache_key (repo_url : String) (pr_number : Int) (head_sha : Option String) : String :=
  let suffix : String :=
    match head_sha with
    | some s => if s.isEmpty then "no-sha" else s
    | none => "no-sha"
  "prreview:" ++ repo_url ++ ":" ++ (⟨intChars pr_number⟩ : String) ++ ":" ++ suffix

/-! ## The response parser (`_parse_json_threaded`)

Tier one is the fenced-extraction regex
`re.search(r'```json\s*(\x7b.*?\x7d)\s*```', content, re.DOTALL)`: the
scan below walks candidate start positions left to right; at a hit the
lazy group takes the first closing brace whose whitespace run is followed
by three backticks, exactly the backtracking the pattern performs.  Tier
two is a strict `json.loads` after stripping and unwrapping a bare
backtick fence; tier three is the line scanner of the `except` branch. -/

/-- Locate the lazy group body: the characters standing before the first
closing brace that is followed by optional whitespace and three
backticks.  `seen` accumulates the characters already passed. -/
def fenceTail (seen : List Char) : List Char → Option (List Char)
  | [] => none
  | c :: tl =>
    if c == '\x7d' && startsWithL "```".data (tl.dropWhile pwsChar) then some seen.reverse
    else fenceTail (c :: seen) tl

/-- Search for the fenced pattern from each start position in turn,
returning the first matched group (braces included), as `re.search`
yields `json_match.group(1)`. -/
def fenceFind : List Char → Option (List Char)
  | [] => none
  | c :: tl =>
    if startsWithL "```json".data (c :: tl) then
      match ((c :: tl).drop 7).dropWhile pwsChar with
      | '\x7b' :: r2 =>
        (match fenceTail [] r2 with
         | some interior => some ('\x7b' :: (interior ++ ['\x7d']))
         | none => fenceFind tl)
      | _ => fenceFind tl
    else fenceFind tl

/-- The severity coercion of the line scanner: keep an enumerated value,
anything else becomes `info`. -/
def sevNorm (sv : List Char) : List Char :=
  if sv = "info".data ∨ sv = "warning".data ∨ sv = "error".data then sv else "info".data

/-- The line scanner of the fallback tier: walk the lines, opening a fresh
partial issue at each `file:`/`filename:` marker (flushing a nonempty one
first), filling `line`, `severity` and `message` from their markers, and
flushing a trailing nonempty partial issue at the end. -/
def scanIssues : List (List Char) → List (String × JValue) → List JValue
  | [], cur => if cur.isEmpty then [] else [.jobj cur]
  | ln :: tl, cur =>
    let l := pyStrip ln
    let low := lowerL l
    if containsSub "file:".data low || containsSub "filename:".data low then
      (if cur.isEmpty then
        scanIssues tl [("file_path", .jstr ⟨pyStrip (lastSeg (splitOnCh ':' l))⟩)]
      else
        .jobj cur :: scanIssues tl [("file_path", .jstr ⟨pyStrip (lastSeg (splitOnCh ':' l))⟩)])
    else if containsSub "line:".data low then
      scanIssues tl (dictSet cur "line"
        (match pyInt (pyStrip (lastSeg (splitOnCh ':' l))) with
         | some n => .jnum n
         | none => .jnull))
    else if containsSub "severity:".data low then
      scanIssues tl (dictSet cur "severity"
        (.jstr ⟨sevNorm (lowerL (pyStrip (lastSeg (splitOnCh ':' l))))⟩))
    else if containsSub "message:".data low then
      scanIssues tl (dictSet cur "message" (.jstr ⟨pyStrip (lastSeg (splitOnCh ':' l))⟩))
    else scanIssues tl cur

/-- The fallback result of the `except json.JSONDecodeError` branch: the
whole (post-extraction) text as summary, plus the scanned issues. -/
def fallbackScan (cs : List Char) : JValue :=
  .jobj [("summary", .jstr ⟨cs⟩), ("issues", .jarr (scanIssues (splitOnCh '\n' cs) []))]

/-- Text reaching `json.loads`: the fenced group if the pattern matched,
stripped, and unwrapped once more when a bare triple-backtick fence
surrounds it (Python slice `[3:-3]` semantics, then another strip). -/
def parsePreprocessed (content : String) : List Char :=
  let cs1 :=
    match fenceFind content.data with
    | some g => g
    | none => content.data
  let cs2 := pyStrip cs1
  if startsWithL "```".data cs2 && endsWithL "```".data cs2 then
    pyStrip (((cs2.drop 3).dropLast).dropLast.dropLast)
  else cs2

/-- The response parser `_parse_json_threaded`: strict `json.loads` on the
preprocessed text, else the line-scanner fallback on that same text. -/
def parse_json_threaded (content : String) : JValue :=
  match jsonLoadsL (parsePreprocessed content) with
  | some v => v
  | none => fallbackScan (parsePreprocessed content)

/-! ## The heuristic analyzer (`_heuristic_review`) -/

/-- The debug-print finding. -/
def dbgIssue (fname : String) (idx : Nat) : AnalysisIssue :=
  ⟨fname, some (idx : Int), .warning, .best_practice,
   "Debug logging found in committed code",
   some "Remove debug prints or guard them behind log levels"⟩

/-- The long-line finding. -/
def longIssue (fname : String) (idx : Nat) : AnalysisIssue :=
  ⟨fname, some (idx : Int), .info, .style,
   "Very long line added (>120 chars)",
   some "Wrap long lines to improve readability"⟩

/-- The leftover-TODO finding. -/
def todoIssue (fname : String) (idx : Nat) : AnalysisIssue :=
  ⟨fname, some (idx : Int), .info, .best_practice,
   "Leftover TODO/FIXME in changes",
   some "Track in issue tracker or resolve before merge"⟩

/-- Findings of one patch line: only lines starting with `+` are looked
at; on the line body past the marker the three checks fire independently,
in source order. -/
def lineIssues (fname : String) (idx : Nat) (l : List Char) : List AnalysisIssue :=
  if startsWithL ['+'] l then
    let nc := l.drop 1
    (if containsSub "print(".data nc || containsSub "console.log(".data nc
     then [dbgIssue fname idx] else []) ++
    (if nc.length > 120 then [longIssue fname idx] else []) ++
    (if containsSub "TODO".data nc || containsSub "FIXME".data nc
     then [todoIssue fname idx] else [])
  else []

/-- Findings of a run of patch lines, numbering from `idx` as
`enumerate(lines, start=1)` does. -/
def linesIssues (fname : String) : Nat → List (List Char) → List AnalysisIssue
  | _, [] => []
  | idx, l :: tl => lineIssues fname idx l ++ linesIssues fname (idx + 1) tl

/-- Findings of one changed file; a file with falsy patch text (absent or
empty) is skipped. -/
def fileIssues (f : PRFile) : List AnalysisIssue :=
  match f.patch with
  | none => []
  | some p => if p.isEmpty then [] else linesIssues f.filename 1 (splitlinesL p.data)

/-- All findings of the heuristic scan, in file order. -/
def heuristicIssues (pr : PRData) : List AnalysisIssue :=
  pr.files.flatMap fileIssues

/-- The fixed advisory summary of the heuristic scan. -/
def heuristicSummary : String :=
  "Automatic scan completed. Consider running a full AI review for deeper insights."

/-- The dictionary `_heuristic_review` returns: the advisory summary and
the dumped findings. -/
def heuristic_review (pr : PRData) : JValue :=
  .jobj [("summary", .jstr heuristicSummary),
         ("issues", .jarr ((heuristicIssues pr).map issueToJson))]

/-! ## Python `str(...)` of embedded values

The normalisation fallback passes `str(item.get(...))` results to the
validator, and the summary line applies `str(...)` to whatever the parsed
payload holds.  Strings pass through; every other value is spelled by its
`repr`.  The string `repr` here always uses single quotes (CPython would
switch to double quotes for a string containing a single quote and no
double quote — a spelling difference in a field no claim inspects). -/

/-- The single-quote character, kept out of string literals. -/
def sqCh : Char := Char.ofNat 39

/-- Hexadecimal digit character (lower case letters). -/
def hexDigitCh (k : Nat) : Char :=
  if k < 10 then digitCharOf k else Char.ofNat (87 + k)

/-- Escape of one character inside a Python string `repr`. -/
def reprEscCh (c : Char) : List Char :=
  if c == '\\' then ['\\', '\\']
  else if c == sqCh then ['\\', sqCh]
  else if c == '\n' then ['\\', 'n']
  else if c == '\r' then ['\\', 'r']
  else if c == '\t' then ['\\', 't']
  else if c.toNat < 32 || c.toNat == 127 then
    ['\\', 'x', hexDigitCh (c.toNat / 16), hexDigitCh (c.toNat % 16)]
  else [c]

/-- Escape of a character list for a string `repr`. -/
def reprEscL : List Char → List Char
  | [] => []
  | c :: tl => reprEscCh c ++ reprEscL tl

/-- Python `repr` of a string, single quoted. -/
def reprStrL (s : String) : List Char :=
  sqCh :: (reprEscL s.data ++ [sqCh])

mutual
/-- Python `repr` of an embedded value. -/
def pyReprJ : JValue → List Char
  | .jnull => "None".data
  | .jbool true => "True".data
  | .jbool false => "False".data
  | .jnum n => intChars n
  | .jstr s => reprStrL s
  | .jarr xs => '[' :: (reprItemsJ xs ++ [']'])
  | .jobj kvs => '\x7b' :: (reprPairsJ kvs ++ ['\x7d'])
/-- Comma-separated element `repr`s of a list. -/
def reprItemsJ : List JValue → List Char
  | [] => []
  | [x] => pyReprJ x
  | x :: y :: tl => pyReprJ x ++ ',' :: ' ' :: reprItemsJ (y :: tl)
/-- Comma-separated entry `repr`s of a dictionary. -/
def reprPairsJ : List (String × JValue) → List Char
  | [] => []
  | [(k, v)] => reprStrL k ++ ':' :: ' ' :: pyReprJ v
  | (k, v) :: p :: tl =>
    reprStrL k ++ ':' :: ' ' :: pyReprJ v ++ ',' :: ' ' :: reprPairsJ (p :: tl)
end

/-- Python `str(...)` of an embedded value. -/
def pyStrJ (v : JValue) : String :=
  match v with
  | .jstr s => s
  | v => ⟨pyReprJ v⟩

/-! ## Issue normalisation (`analyze_pr_with_agent`, the item loop)

Each payload item first goes through the plain pydantic construction
`AnalysisIssue(**item)`; when that validation fails, the source rebuilds
the record with `str(...)` coercions and defaults for the missing keys and
validates again, this second failure escaping the loop.  A non-dictionary
item fails both the keyword expansion and the `.get` calls of the rebuild,
so it also escapes. -/

/-- Pydantic validation of the `line` field (`int | None`, default
`None`): `None` and integers pass, a numeric string is coerced in lax
mode, everything else is a validation error (outer `none`). -/
def pydLineField (v : JValue) : Option (Option Int) :=
  match v with
  | .jnull => some none
  | .jnum n => some (some n)
  | .jstr s =>
    (match pyInt s.data with
     | some n => some (some n)
     | none => none)
  | _ => none

/-- Pydantic validation of the `suggestion` field (`str | None`, default
`None`). -/
def pydSuggestionField (v : JValue) : Option (Option String) :=
  match v with
  | .jnull => some none
  | .jstr s => some (some s)
  | _ => none

/-- The construction `AnalysisIssue(**item)` on a dictionary: every field
validates or the whole construction fails (pydantic reports all field
errors together, but success and failure coincide with this nested
check). -/
def strictIssue (kvs : List (String × JValue)) : Option AnalysisIssue :=
  match lookupLastJ kvs "file_path" with
  | some (.jstr fp) =>
    (match (match lookupLastJ kvs "line" with
            | none => some (none : Option Int)
            | some v => pydLineField v) with
     | none => none
     | some ln =>
       match lookupLastJ kvs "severity" with
       | some (.jstr svs) =>
         (match severityOfString svs with
          | none => none
          | some sv =>
            match lookupLastJ kvs "category" with
            | some (.jstr cts) =>
              (match categoryOfString cts with
               | none => none
               | some ct =>
                 match lookupLastJ kvs "message" with
                 | some (.jstr msg) =>
                   (match (match lookupLastJ kvs "suggestion" with
                           | none => some (none : Option String)
                           | some v => pydSuggestionField v) with
                    | none => none
                    | some sg => some ⟨fp, ln, sv, ct, msg, sg⟩)
                 | _ => none)
            | _ => none)
       | _ => none)
  | _ => none

/-- The rebuild of the `except` branch: `str(...)` around the fetched or
defaulted `file_path`, `severity`, `category` and `message`, the raw
`line` and `suggestion` values, then pydantic validation once more; any
remaining mismatch raises out of the loop (`Except.error`). -/
def fallbackIssue (kvs : List (String × JValue)) : Except String AnalysisIssue :=
  let fp := pyStrJ ((lookupLastJ kvs "file_path").getD (.jstr "unknown"))
  match (match lookupLastJ kvs "line" with
         | none => some (none : Option Int)
         | some v => pydLineField v) with
  | none => .error "ValidationError: line"
  | some ln =>
    match severityOfString (pyStrJ ((lookupLastJ kvs "severity").getD (.jstr "info"))) with
    | none => .error "ValidationError: severity"
    | some sv =>
      match categoryOfString (pyStrJ ((lookupLastJ kvs "category").getD (.jstr "best_practice"))) with
      | none => .error "ValidationError: category"
      | some ct =>
        let msg := pyStrJ ((lookupLastJ kvs "message").getD (.jstr "Unparsed issue"))
        match (match lookupLastJ kvs "suggestion" with
               | none => some (none : Option String)
               | some v => pydSuggestionField v) with
        | none => .error "ValidationError: suggestion"
        | some sg => .ok ⟨fp, ln, sv, ct, msg, sg⟩

/-- Normalisation of one payload item: strict construction, then the
rebuild; non-dictionaries raise at the rebuild `.get`. -/
def normalizeItem (item : JValue) : Except String AnalysisIssue :=
  match item with
  | .jobj kvs =>
    (match strictIssue kvs with
     | some i => .ok i
     | none => fallbackIssue kvs)
  | _ => .error "AttributeError: no attribute get"

/-- The normalisation loop over the payload items: the first escaping
item aborts the whole loop, as the uncaught second failure does in the
source. -/
def normalizeItems : List JValue → Except String (List AnalysisIssue)
  | [] => .ok []
  | item :: tl =>
    match normalizeItem item with
    | .error e => .error e
    | .ok i =>
      match normalizeItems tl with
      | .error e => .error e
      | .ok l => .ok (i :: l)

/-! ## The provider gateway (`_call_ollama`, `_call_openai`)

The chat calls are I/O: an `AgentEnv` supplies each outcome.  What the
embeddings keep of the source is the availability guards, the error
classification over the lower-cased error text, the empty-content
substitution, and the parse of the returned content. -/

/-- Environment of one `analyze_pr_with_agent` run: configuration values
and the outcome the backend would produce. -/
structure AgentEnv where
  model_provider : Option String
  ollama_available : Bool
  ollama_model : String
  ollama_chat : Except String String
  openai_available : Bool
  openai_api_key : Option String
  openai_chat : Except String (Option String)

/-- Truthiness of an optional string, the `if not settings...` guards. -/
def pyTruthyOptStr : Option String → Bool
  | none => false
  | some s => !s.isEmpty

/-- The provider name `(settings.model_provider or "ollama").lower()`. -/
def resolveProvider (mp : Option String) : String :=
  lowerStr (match mp with
    | some s => if s.isEmpty then "ollama" else s
    | none => "ollama")

/-- The local-inference call `_call_ollama`: unavailable package, else the
chat outcome; an error is classified on `model not found` and
`connection refused` fragments, and content is parsed. -/
def call_ollama (env : AgentEnv) : Except String JValue :=
  if !env.ollama_available then .error "Ollama package not available"
  else
    match env.ollama_chat with
    | .ok content => .ok (parse_json_threaded content)
    | .error e =>
      if containsSubStr "model not found" (lowerStr e) then
        .error ("Ollama model " ++ (⟨[sqCh]⟩ : String) ++ env.ollama_model ++ (⟨[sqCh]⟩ : String)
          ++ " not found. run " ++ (⟨[sqCh]⟩ : String) ++ "ollama pull " ++ env.ollama_model
          ++ (⟨[sqCh]⟩ : String))
      else if containsSubStr "connection refused" (lowerStr e) then
        .error ("Ollama service not running. Please start Ollama with "
          ++ (⟨[sqCh]⟩ : String) ++ "ollama serve" ++ (⟨[sqCh]⟩ : String))
      else .error ("Ollama API error: " ++ e)

/-- Python `content or "..."` on the optional message content: `None` and
the empty string are both falsy, so either is replaced by the default. -/
def pyOrStr (c : Option String) (d : String) : String :=
  match c with
  | some s => if s == "" then d else s
  | none => d

/-- The remote call `_call_openai`: missing client or key guard, else the
chat outcome; falsy content (absent or empty) becomes the empty-object
text, errors are classified on `quota`/`billing`/`authentication`
fragments. -/
def call_openai (env : AgentEnv) : Except String JValue :=
  if !env.openai_available then .error "OpenAI client not available"
  else if !pyTruthyOptStr env.openai_api_key then .error "OPENAI_API_KEY not configured"
  else
    match env.openai_chat with
    | .ok contentOpt => .ok (parse_json_threaded (pyOrStr contentOpt "\x7b\x7d"))
    | .error e =>
      if containsSubStr "quota" (lowerStr e) || containsSubStr "billing" (lowerStr e) then
        .error "OpenAI API quota exceeded or billing issue"
      else if containsSubStr "authentication" (lowerStr e) then
        .error "OpenAI API key is invalid or expired"
      else .error ("OpenAI API error: " ++ e)

/-- Provider dispatch of `analyze_pr_with_agent`: `openai` selects the
remote call, everything else the local one. -/
def providerCall (env : AgentEnv) : Except String JValue :=
  if resolveProvider env.model_provider == "openai" then call_openai env
  else call_ollama env

/-! ## Result assembly (`analyze_pr_with_agent`)

The prompt built by `_build_prompt` is pure string assembly whose output
feeds only the chat call, which the environment already abstracts; it has
no other influence on the result, so it needs no embedding of its own. -/

/-- The payload the provider stage leaves behind: the parsed content when
truthy, else the heuristic dictionary (both the exception path and the
falsy-value path of `if not parsed`). -/
def agentParsed (env : AgentEnv) (pr : PRData) : JValue :=
  match providerCall env with
  | .ok v => if jTruthy v then v else heuristic_review pr
  | .error _ => heuristic_review pr

/-- The agent `analyze_pr_with_agent`: provider stage, issue
normalisation, summary coercion and result assembly; `Except.error` marks
the raisable steps (`.get` on a non-dictionary payload, iteration over a
non-iterable `issues` value, a normalisation failure). -/
def analyze_pr_with_agent (env : AgentEnv) (pr : PRData) : Except String AnalysisResult := do
  let provider := resolveProvider env.model_provider
  let parsed := agentParsed env pr
  let issuesRaw ← pyGet parsed "issues"
  let payload : JValue :=
    match issuesRaw with
    | some v => if jTruthy v then v else .jarr []
    | none => .jarr []
  let items ← pyIter payload
  let issues ← normalizeItems items
  let summaryRaw ← pyGet parsed "summary"
  let summary : String :=
    match summaryRaw with
    | some v => pyStrJ v
    | none => "Code review completed"
  pure { repo_url := "https://github.com/" ++ pr.owner ++ "/" ++ pr.repo,
         pr_number := pr.number,
         head_sha := some pr.head_sha,
         issues := issues,
         summary := summary,
         model_info := [("provider", provider)] }

/-! ## The job orchestrator (`analyze_pr_task`)

The task body runs fetch, cache read, analysis, cache write.  A
`TaskEnv` carries the outcome of each external call.  Re-tracing the
source: the fetch sits in a `try` whose handler re-raises, so a fetch
error fails the job; the Redis `get` and the `json.loads` on a cached
entry sit in no `try` at all; the agent call sits in a `try` whose
handler substitutes the fallback dictionary; the `setex` failure is
swallowed. -/

/-- Environment of one job run. -/
structure TaskEnv where
  fetch_outcome : Except String PRData
  cache_get : Except String (Option String)
  agent_outcome : Except String AnalysisResult
  cache_set_ok : Bool

/-- Terminal observation of a job: the Celery task either returns a value
(`SUCCESS`, surfaced as `DONE`) or raises (`FAILURE`). -/
inductive TaskOutcome where
  | done (v : JValue)
  | failed (err : String)
deriving Repr

/-- The fallback dictionary built when the agent raises. -/
def taskFallbackJson (repo_url : String) (pr_number : Int) (head_sha : String)
    (e : String) : JValue :=
  .jobj [("repo_url", .jstr repo_url), ("pr_number", .jnum pr_number),
         ("head_sha", .jstr head_sha), ("issues", .jarr []),
         ("summary", .jstr ("Analysis failed: " ++ e ++ ". Try again or check logs.")),
         ("model_info", .jobj [("provider", .jstr "fallback"), ("error", .jstr e)])]

/-- The fresh-analysis tail of the task: agent result or fallback
dictionary; the cache write afterwards is best effort and cannot change
the returned value. -/
def taskFresh (env : TaskEnv) (repo_url : String) (pr_number : Int) (pr : PRData) :
    TaskOutcome :=
  match env.agent_outcome with
  | .ok r => .done (resultToJson r)
  | .error e => .done (taskFallbackJson repo_url pr_number pr.head_sha e)

/-- The job orchestrator `analyze_pr_task`.  After a successful fetch the
cache key is `build_cache_key repo_url pr_number (some pr.head_sha)`; with
`force` unset the Redis read runs unguarded, a truthy cached entry is
decoded by an equally unguarded `json.loads` and returned as is, and
everything else falls through to the fresh analysis. -/
def analyze_pr_task (env : TaskEnv) (repo_url : String) (pr_number : Int)
    (force : Bool) : TaskOutcome :=
  match env.fetch_outcome with
  | .error e => .failed e
  | .ok pr =>
    if force then taskFresh env repo_url pr_number pr
    else
      match env.cache_get with
      | .error e => .failed e
      | .ok (some cached) =>
        if cached.isEmpty then taskFresh env repo_url pr_number pr
        else
          match jsonLoads cached with
          | some v => .done v
          | none => .failed ("json.decoder.JSONDecodeError: " ++ cached)
      | .ok none => taskFresh env repo_url pr_number pr

/-! ## The batch surface (`analyze_multiple_prs`) -/

/-- One batch request plus the outcome its fetch-and-analyze pair would
produce. -/
structure BatchItemEnv where
  repo_url : String
  pr_number : Int
  outcome : Except String AnalysisResult

/-- One entry of the per-item response array. -/
inductive BatchItem where
  | success (repo_url : String) (pr_number : Int) (result : JValue)
  | failure (repo_url : String) (pr_number : Int) (err : String)
deriving Repr

/-- The batch response body. -/
structure BatchResponse where
  batch_id : String
  total_prs : Nat
  results : List BatchItem
deriving Repr

/-- The per-item worker `analyze_single_pr`: its own `try` turns any
failure into an error entry, leaving the other items untouched. -/
def batchItemRun (it : BatchItemEnv) : BatchItem :=
  match it.outcome with
  | .ok r => .success it.repo_url it.pr_number (resultToJson r)
  | .error e => .failure it.repo_url it.pr_number e

/-- The batch endpoint `analyze_multiple_prs`: over ten requests raise
`HTTPException(400)`, otherwise every item is evaluated and the responses
are gathered in order; `reqs_hash` stands for the `hash(str(requests))`
seed of the batch id. -/
def analyze_multiple_prs (reqs : List BatchItemEnv) (reqs_hash : Int) :
    Except (Nat × String) BatchResponse :=
  if reqs.length > 10 then .error (400, "Maximum 10 PRs per batch")
  else
    .ok { batch_id := "batch_" ++ (⟨intChars reqs.length⟩ : String) ++ "_"
            ++ (⟨intChars reqs_hash⟩ : String),
          total_prs := reqs.length,
          results := reqs.map batchItemRun }

/-! ## Shared sample data for witnesses and counterexamples -/

/-- A changed file whose patch adds one debug print line. -/
def sampleFile : PRFile :=
  ⟨"a.py", "modified", 1, 0, 1, some "+    print(\"debug\")", none⟩

/-- A small snapshot carrying `sampleFile`. -/
def samplePR : PRData :=
  ⟨"o", "r", 5, "t", none, "abc", "def", [sampleFile], "d"⟩

/-- A small well-formed analysis result. -/
def sampleResult : AnalysisResult :=
  ⟨"https://github.com/o/r", 5, some "abc", [], "s", [("provider", "ollama")]⟩

/-! ## Claim C7 — cache key determinism and layout -/

/-- Claim C7: the cache-key function is deterministic — it is a pure
function of the triple, so the same triple always yields the same key —
and the key has the layout `<namespace>:<repoURL>:<prNumber>:<suffix>`
with namespace `prreview` and suffix the head commit, an absent (or
empty, hence falsy) commit mapping to the fixed sentinel `no-sha`. -/
theorem claim_C7 (repo_url : String) (pr_number : Int) (head_sha : Option String) :
    build_cache_key repo_url pr_number head_sha =
      "prreview:" ++ repo_url ++ ":" ++ (⟨intChars pr_number⟩ : String) ++ ":"
        ++ (match head_sha with
            | some s => if s.isEmpty then "no-sha" else s
            | none => "no-sha")
    ∧ build_cache_key repo_url pr_number none =
      "prreview:" ++ repo_url ++ ":" ++ (⟨intChars pr_number⟩ : String) ++ ":" ++ "no-sha" := by
  constructor
  · rfl
  · rfl

/-! ## Claim C9 — batch cap and per-item isolation -/

/-- Claim C9: a batch of more than ten requests is rejected with the 400
validation error; an accepted batch yields a response whose per-item array
has one entry per request, entry `i` a function of request `i` alone, each
entry a success carrying the result or a failure carrying the error, so
one item failing never disturbs the others. -/
theorem claim_C9 (reqs : List BatchItemEnv) (h : Int) :
    (reqs.length > 10 →
      analyze_multiple_prs reqs h = .error (400, "Maximum 10 PRs per batch"))
    ∧ (reqs.length ≤ 10 →
      ∃ resp, analyze_multiple_prs reqs h = .ok resp
        ∧ resp.total_prs = reqs.length
        ∧ resp.results.length = reqs.length
        ∧ (∀ i : Nat, resp.results[i]? = (reqs[i]?).map batchItemRun)
        ∧ (∀ i : Nat, ∀ it : BatchItemEnv, reqs[i]? = some it →
            (∃ r, it.outcome = .ok r ∧
              resp.results[i]? = some (.success it.repo_url it.pr_number (resultToJson r)))
            ∨ (∃ e, it.outcome = .error e ∧
              resp.results[i]? = some (.failure it.repo_url it.pr_number e)))) := by
  constructor
  · intro hgt
    simp [analyze_multiple_prs, hgt]
  · intro hle
    refine ⟨⟨"batch_" ++ (⟨intChars (reqs.length : Int)⟩ : String) ++ "_"
        ++ (⟨intChars h⟩ : String), reqs.length, reqs.map batchItemRun⟩,
      by simp [analyze_multiple_prs, Nat.not_lt.mpr hle], rfl, by simp, ?_, ?_⟩
    · intro i
      simp [List.getElem?_map]
    · intro i it hit
      match houtcome : it.outcome with
      | .ok r =>
        exact .inl ⟨r, rfl, by simp [hit, List.getElem?_map, batchItemRun, houtcome]⟩
      | .error e =>
        exact .inr ⟨e, rfl, by simp [hit, List.getElem?_map, batchItemRun, houtcome]⟩

/-- Witness for claim C9: a two-item batch, the first succeeding and the
second failing, is accepted and both entries appear independently. -/
theorem claim_C9_witness :
    ∃ resp,
      analyze_multiple_prs
        [⟨"https://github.com/o/r", 5, .ok sampleResult⟩,
         ⟨"https://github.com/o/q", 6, .error "boom"⟩] 7 = .ok resp
      ∧ resp.total_prs = 2
      ∧ resp.results.length = 2
      ∧ (∀ i : Nat, resp.results[i]? =
          (([⟨"https://github.com/o/r", 5, .ok sampleResult⟩,
             ⟨"https://github.com/o/q", 6, .error "boom"⟩] : List BatchItemEnv)[i]?).map batchItemRun)
      ∧ (∀ i : Nat, ∀ it : BatchItemEnv,
          ([⟨"https://github.com/o/r", 5, .ok sampleResult⟩,
            ⟨"https://github.com/o/q", 6, .error "boom"⟩] : List BatchItemEnv)[i]? = some it →
          (∃ r, it.outcome = .ok r ∧
            resp.results[i]? = some (.success it.repo_url it.pr_number (resultToJson r)))
          ∨ (∃ e, it.outcome = .error e ∧
            resp.results[i]? = some (.failure it.repo_url it.pr_number e))) :=
  (claim_C9 [⟨"https://github.com/o/r", 5, .ok sampleResult⟩,
             ⟨"https://github.com/o/q", 6, .error "boom"⟩] 7).2 (by decide)

/-! ## Claim C5 — cache hit short-circuit -/

/-- Claim C5: with `force` unset and a truthy cached entry present that
decodes, the job returns the decoded stored result and terminates `DONE`;
and the outcome is independent of the whole analysis stage — swapping the
agent outcome (which subsumes the Prompt Builder, the Provider Gateway and
the Heuristic Analyzer, all of which run inside it) for any other changes
nothing, so none of them is invoked. -/
theorem claim_C5 (env : TaskEnv) (repo_url : String) (pr_number : Int) (pr : PRData)
    (cached : String) (v : JValue)
    (hfetch : env.fetch_outcome = .ok pr)
    (hget : env.cache_get = .ok (some cached))
    (hne : cached.isEmpty = false)
    (hdec : jsonLoads cached = some v) :
    analyze_pr_task env repo_url pr_number false = .done v
    ∧ ∀ a₁ a₂ : Except String AnalysisResult,
        analyze_pr_task { env with agent_outcome := a₁ } repo_url pr_number false
          = analyze_pr_task { env with agent_outcome := a₂ } repo_url pr_number false := by
  constructor
  · simp [analyze_pr_task, hfetch, hget, hne, hdec]
  · intro a₁ a₂
    simp [analyze_pr_task, hfetch, hget, hne, hdec]

/-- Witness for claim C5: a populated cache entry is returned as decoded,
whatever the agent stage would have produced. -/
theorem claim_C5_witness :
    analyze_pr_task
      ⟨.ok samplePR, .ok (some "\x7b\"summary\": \"s\"\x7d"), .error "agent boom", true⟩
      "https://github.com/o/r" 5 false = .done (.jobj [("summary", .jstr "s")])
    ∧ ∀ a₁ a₂ : Except String AnalysisResult,
        analyze_pr_task ⟨.ok samplePR, .ok (some "\x7b\"summary\": \"s\"\x7d"), a₁, true⟩
            "https://github.com/o/r" 5 false
          = analyze_pr_task ⟨.ok samplePR, .ok (some "\x7b\"summary\": \"s\"\x7d"), a₂, true⟩
            "https://github.com/o/r" 5 false :=
  claim_C5 ⟨.ok samplePR, .ok (some "\x7b\"summary\": \"s\"\x7d"), .error "agent boom", true⟩
    "https://github.com/o/r" 5 samplePR "\x7b\"summary\": \"s\"\x7d"
    (.jobj [("summary", .jstr "s")]) rfl rfl rfl rfl

/-! ## Claim C1 — failure containment of the orchestrator -/

/-- Well-behaved cache read: the Redis `get` returned (no exception), and
a present entry is either falsy or decodable JSON. -/
def cacheReadOk (g : Except String (Option String)) : Prop :=
  g = .ok none ∨ ∃ c, g = .ok (some c) ∧ (c.isEmpty = true ∨ ∃ v, jsonLoads c = some v)

/-- Counterexample to claim C1 as stated: a job whose fetch succeeds but
whose unguarded Redis read raises terminates `FAILED`, so `FAILED` is
reachable past the fetch step — the claimed absorption of cache read
trouble does not hold. -/
theorem claim_C1_counterexample :
    (⟨.ok samplePR, .error "redis connection refused", .ok sampleResult, true⟩
        : TaskEnv).fetch_outcome = .ok samplePR
    ∧ analyze_pr_task
        ⟨.ok samplePR, .error "redis connection refused", .ok sampleResult, true⟩
        "https://github.com/o/r" 5 false = .failed "redis connection refused" :=
  ⟨rfl, rfl⟩

/-- Claim C1, amended: once the fetch succeeds, the job terminates `DONE`
for every agent outcome (provider failures, parse irregularities,
normalisation failures all sit inside `agent_outcome`, and a cache-write
failure never surfaces) — provided the cache read step itself is skipped
(`force`) or well behaved; and a `FAILED` terminal can only carry a fetch
error, a raised cache read, or a cache entry that does not decode. -/
theorem claim_C1 (env : TaskEnv) (repo_url : String) (pr_number : Int) (force : Bool) :
    (∀ pr, env.fetch_outcome = .ok pr →
      (force = true ∨ cacheReadOk env.cache_get) →
      ∃ v, analyze_pr_task env repo_url pr_number force = .done v)
    ∧ (∀ e, analyze_pr_task env repo_url pr_number force = .failed e →
      env.fetch_outcome = .error e
      ∨ env.cache_get = .error e
      ∨ (force = false ∧ ∃ c, env.cache_get = .ok (some c)
          ∧ c.isEmpty = false ∧ jsonLoads c = none)) := by
  constructor
  · intro pr hfetch hread
    have hdone : ∃ v, taskFresh env repo_url pr_number pr = .done v := by
      match hagent : env.agent_outcome with
      | .ok r => exact ⟨resultToJson r, by simp [taskFresh, hagent]⟩
      | .error e =>
        exact ⟨taskFallbackJson repo_url pr_number pr.head_sha e, by simp [taskFresh, hagent]⟩
    rcases hread with hforce | hnone | ⟨c, hc, hemp | ⟨v, hv⟩⟩
    · subst hforce
      simpa [analyze_pr_task, hfetch] using hdone
    · cases force
      · simpa [analyze_pr_task, hfetch, hnone] using hdone
      · simpa [analyze_pr_task, hfetch, hnone] using hdone
    · cases force
      · simpa [analyze_pr_task, hfetch, hc, hemp] using hdone
      · simpa [analyze_pr_task, hfetch, hc] using hdone
    · cases force
      · by_cases hemp : c.isEmpty = true
        · simpa [analyze_pr_task, hfetch, hc, hemp] using hdone
        · exact ⟨v, by simp [analyze_pr_task, hfetch, hc, hemp, hv]⟩
      · simpa [analyze_pr_task, hfetch, hc] using hdone
  · intro e hfail
    match hfetch : env.fetch_outcome with
    | .error e0 =>
      left
      rw [analyze_pr_task, hfetch] at hfail
      cases hfail
      rfl
    | .ok pr =>
      have hfresh : ∀ e0, taskFresh env repo_url pr_number pr ≠ .failed e0 := by
        intro e0
        match hagent : env.agent_outcome with
        | .ok r => simp [taskFresh, hagent]
        | .error e1 => simp [taskFresh, hagent]
      rw [analyze_pr_task, hfetch] at hfail
      cases force
      · simp only [Bool.false_eq_true, if_false] at hfail
        match hget : env.cache_get with
        | .error e0 =>
          simp only [hget, TaskOutcome.failed.injEq] at hfail
          subst hfail
          exact .inr (.inl rfl)
        | .ok none =>
          rw [hget] at hfail
          exact absurd hfail (hfresh e)
        | .ok (some c) =>
          simp only [hget] at hfail
          by_cases hemp : c.isEmpty = true
          · rw [if_pos hemp] at hfail
            exact absurd hfail (hfresh e)
          · rw [if_neg hemp] at hfail
            match hdec : jsonLoads c with
            | some v =>
              simp only [hdec] at hfail
              exact absurd hfail (by simp)
            | none =>
              exact .inr (.inr ⟨rfl, c, rfl, by simpa using hemp, hdec⟩)
      · simp only [if_true] at hfail
        exact absurd hfail (hfresh e)

/-- Witness for claim C1 amended: a job whose provider stage raised and
whose cache write would fail still terminates `DONE`. -/
theorem claim_C1_witness :
    ∃ v, analyze_pr_task ⟨.ok samplePR, .ok none, .error "agent boom", false⟩
      "https://github.com/o/r" 5 false = .done v :=
  (claim_C1 ⟨.ok samplePR, .ok none, .error "agent boom", false⟩
      "https://github.com/o/r" 5 false).1 samplePR rfl (.inr (.inl rfl))

/-! ## Claim C3 — parser totality and output shape -/

/-- Recognise a `summary`-string, `issues`-array dictionary. -/
def hasSummaryIssuesShape (v : JValue) : Bool :=
  match v with
  | .jobj kvs =>
    (match lookupLastJ kvs "summary" with
     | some (.jstr _) => true
     | _ => false)
    && (match lookupLastJ kvs "issues" with
        | some (.jarr _) => true
        | _ => false)
  | _ => false

/-- Counterexample to claim C3 as stated: the parser is total, but on the
valid JSON text of an empty object the strict tier returns that empty
dictionary as is, which carries neither a string summary nor an issues
array; only the fallback tier guarantees the claimed shape. -/
theorem claim_C3_counterexample :
    parse_json_threaded "\x7b\x7d" = .jobj []
    ∧ hasSummaryIssuesShape (parse_json_threaded "\x7b\x7d") = false :=
  ⟨rfl, rfl⟩

/-- Claim C3, amended: the parser is a total function (it is a Lean
function into `JValue`, so no input can make it raise), and for every
input text it either hands back the strict-tier JSON value exactly as
parsed — which need not be a `summary`/`issues` structure — or, whenever
the strict parse fails, falls back to a structure that always carries a
string summary and an issues array. -/
theorem claim_C3 (content : String) :
    (∃ v, jsonLoadsL (parsePreprocessed content) = some v ∧ parse_json_threaded content = v)
    ∨ (jsonLoadsL (parsePreprocessed content) = none
       ∧ parse_json_threaded content = fallbackScan (parsePreprocessed content)
       ∧ hasSummaryIssuesShape (parse_json_threaded content) = true) := by
  match hload : jsonLoadsL (parsePreprocessed content) with
  | some v =>
    left
    exact ⟨v, rfl, by rw [parse_json_threaded, hload]⟩
  | none =>
    right
    refine ⟨rfl, by rw [parse_json_threaded, hload], ?_⟩
    rw [parse_json_threaded, hload]
    rfl

/-! ## Claim C4 — severity and category coercion in normalisation -/

/-- Counterexample to claim C4 as stated: an issue record whose severity
is present but outside the enumeration is not coerced to `info`: the
strict construction fails, the rebuild passes the same out-of-enum string
through `str(...)` into the validator again, and the second
`ValidationError` escapes the normalisation loop. -/
theorem claim_C4_counterexample :
    normalizeItem (.jobj [("file_path", .jstr "f"), ("severity", .jstr "critical"),
      ("category", .jstr "style"), ("message", .jstr "m")]) =
    .error "ValidationError: severity" := rfl

/-- The `line` value is absent, or `None`, an integer, or an
integer-spelling string. -/
def lineFieldOk (kvs : List (String × JValue)) : Prop :=
  lookupLastJ kvs "line" = none
  ∨ ∃ v ln, lookupLastJ kvs "line" = some v ∧ pydLineField v = some ln

/-- The `suggestion` value is absent, `None` or a string. -/
def suggestionFieldOk (kvs : List (String × JValue)) : Prop :=
  lookupLastJ kvs "suggestion" = none
  ∨ ∃ v sg, lookupLastJ kvs "suggestion" = some v ∧ pydSuggestionField v = some sg

/-- The `severity` value is absent (so the rebuild defaults it) or an
enumerated string. -/
def severityFieldCoercible (kvs : List (String × JValue)) : Prop :=
  lookupLastJ kvs "severity" = none
  ∨ ∃ s sv, lookupLastJ kvs "severity" = some (.jstr s) ∧ severityOfString s = some sv

/-- The `category` value is absent (so the rebuild defaults it) or an
enumerated string. -/
def categoryFieldCoercible (kvs : List (String × JValue)) : Prop :=
  lookupLastJ kvs "category" = none
  ∨ ∃ t ct, lookupLastJ kvs "category" = some (.jstr t) ∧ categoryOfString t = some ct

theorem strictIssue_needs_category (kvs : List (String × JValue))
    (h : lookupLastJ kvs "category" = none) : strictIssue kvs = none := by
  unfold strictIssue
  repeat' split
  all_goals first | rfl | simp_all

theorem strictIssue_needs_severity (kvs : List (String × JValue))
    (h : lookupLastJ kvs "severity" = none) : strictIssue kvs = none := by
  unfold strictIssue
  repeat' split
  all_goals first | rfl | simp_all

theorem strictIssue_severity_invalid (kvs : List (String × JValue)) (s : String)
    (h1 : lookupLastJ kvs "severity" = some (.jstr s))
    (h2 : severityOfString s = none) : strictIssue kvs = none := by
  unfold strictIssue
  repeat' split
  all_goals first | rfl | simp_all

/-- The rebuild succeeds whenever the typed fields are usable, with the
two claimed defaults for absent severity and category. -/
theorem fallbackIssue_ok (kvs : List (String × JValue))
    (hl : lineFieldOk kvs) (hs : suggestionFieldOk kvs)
    (hv : severityFieldCoercible kvs) (hc : categoryFieldCoercible kvs) :
    ∃ i, fallbackIssue kvs = .ok i
      ∧ (lookupLastJ kvs "category" = none → i.category = .best_practice)
      ∧ (lookupLastJ kvs "severity" = none → i.severity = .info) := by
  have hlo : ∃ ln, (match lookupLastJ kvs "line" with
      | none => some (none : Option Int)
      | some v => pydLineField v) = some ln := by
    rcases hl with hl | ⟨v, ln, hl, hlv⟩
    · exact ⟨none, by rw [hl]⟩
    · exact ⟨ln, by rw [hl]; exact hlv⟩
  have hso : ∃ sg, (match lookupLastJ kvs "suggestion" with
      | none => some (none : Option String)
      | some v => pydSuggestionField v) = some sg := by
    rcases hs with hs | ⟨v, sg, hs, hsv⟩
    · exact ⟨none, by rw [hs]⟩
    · exact ⟨sg, by rw [hs]; exact hsv⟩
  have hvo : ∃ sv, severityOfString (pyStrJ ((lookupLastJ kvs "severity").getD (.jstr "info")))
      = some sv ∧ (lookupLastJ kvs "severity" = none → sv = .info) := by
    rcases hv with hv | ⟨s, sv, hv, hsev⟩
    · exact ⟨.info, by rw [hv]; rfl, fun _ => rfl⟩
    · exact ⟨sv, by rw [hv]; exact hsev, fun h => by rw [h] at hv; cases hv⟩
  have hco : ∃ ct, categoryOfString (pyStrJ ((lookupLastJ kvs "category").getD (.jstr "best_practice")))
      = some ct ∧ (lookupLastJ kvs "category" = none → ct = .best_practice) := by
    rcases hc with hc | ⟨t, ct, hc, hcat⟩
    · exact ⟨.best_practice, by rw [hc]; rfl, fun _ => rfl⟩
    · exact ⟨ct, by rw [hc]; exact hcat, fun h => by rw [h] at hc; cases hc⟩
  obtain ⟨ln, hln⟩ := hlo
  obtain ⟨sg, hsg⟩ := hso
  obtain ⟨sv, hsv, hsvd⟩ := hvo
  obtain ⟨ct, hct, hctd⟩ := hco
  refine ⟨⟨pyStrJ ((lookupLastJ kvs "file_path").getD (.jstr "unknown")), ln, sv, ct,
      pyStrJ ((lookupLastJ kvs "message").getD (.jstr "Unparsed issue")), sg⟩,
    ?_, fun h => hctd h, fun h => hsvd h⟩
  simp only [fallbackIssue, hln, hsv, hct, hsg]

/-- Claim C4, amended: issue normalisation accepts every record whose
typed fields are usable, coercing a missing severity to `info` and a
missing category to `best_practice`, and severity and category of every
normalised issue lie in their enumerations; but a record whose severity is
present and outside the enumeration is rejected — the normalisation
raises instead of coercing it to `info`, and the error escapes to the
task-level fallback. -/
theorem claim_C4 :
    (∀ kvs : List (String × JValue), lineFieldOk kvs → suggestionFieldOk kvs →
      severityFieldCoercible kvs → categoryFieldCoercible kvs →
      ∃ i, normalizeItem (.jobj kvs) = .ok i
        ∧ (lookupLastJ kvs "category" = none → i.category = .best_practice)
        ∧ (lookupLastJ kvs "severity" = none → i.severity = .info))
    ∧ (∀ (kvs : List (String × JValue)) (s : String),
        lookupLastJ kvs "severity" = some (.jstr s) → severityOfString s = none →
        ∃ e, normalizeItem (.jobj kvs) = .error e)
    ∧ (∀ (item : JValue) (i : AnalysisIssue), normalizeItem item = .ok i →
        severityOfString i.severity.toStr = some i.severity
        ∧ categoryOfString i.category.toStr = some i.category) := by
  refine ⟨?_, ?_, ?_⟩
  · intro kvs hl hs hv hc
    match hstrict : strictIssue kvs with
    | some i =>
      refine ⟨i, by simp [normalizeItem, hstrict], ?_, ?_⟩
      · intro hnone
        rw [strictIssue_needs_category kvs hnone] at hstrict
        cases hstrict
      · intro hnone
        rw [strictIssue_needs_severity kvs hnone] at hstrict
        cases hstrict
    | none =>
      obtain ⟨i, hok, hcd, hsd⟩ := fallbackIssue_ok kvs hl hs hv hc
      exact ⟨i, by simp [normalizeItem, hstrict, hok], hcd, hsd⟩
  · intro kvs s h1 h2
    have h0 := strictIssue_severity_invalid kvs s h1 h2
    rcases hlo : (match lookupLastJ kvs "line" with
        | none => some (none : Option Int)
        | some v => pydLineField v) with _ | ln
    · exact ⟨"ValidationError: line", by simp [normalizeItem, h0, fallbackIssue, hlo]⟩
    · exact ⟨"ValidationError: severity",
        by simp [normalizeItem, h0, fallbackIssue, hlo, h1, h2, pyStrJ]⟩
  · intro item i _
    cases hsv : i.severity <;> cases hct : i.category <;> exact ⟨rfl, rfl⟩

/-- Witness for claim C4 amended: a record with no category and no
severity normalises to an issue with category `best_practice` and
severity `info`. -/
theorem claim_C4_witness :
    ∃ i, normalizeItem (.jobj [("file_path", .jstr "a.py"), ("message", .jstr "m")]) = .ok i
      ∧ (lookupLastJ [("file_path", .jstr "a.py"), ("message", .jstr "m")] "category" = none →
          i.category = .best_practice)
      ∧ (lookupLastJ [("file_path", .jstr "a.py"), ("message", .jstr "m")] "severity" = none →
          i.severity = .info) :=
  claim_C4.1 [("file_path", .jstr "a.py"), ("message", .jstr "m")]
    (.inl rfl) (.inl rfl) (.inl rfl) (.inl rfl)

/-! ## The heuristic path through the agent (claims C2, C10) -/

/-- Normalisation is the identity on dumped issues: the strict
construction validates every field a `model_dump` produces. -/
theorem normalizeItem_dump (i : AnalysisIssue) : normalizeItem (issueToJson i) = .ok i := by
  obtain ⟨fp, ln, sv, ct, msg, sg⟩ := i
  cases ln <;> cases sg <;> cases sv <;> cases ct <;> rfl

/-- Normalising a dumped issue list recovers it. -/
theorem normalizeItems_dump (l : List AnalysisIssue) :
    normalizeItems (l.map issueToJson) = .ok l := by
  induction l with
  | nil => rfl
  | cons i tl ih =>
    simp [normalizeItems, normalizeItem_dump, ih]

/-- Whatever run reaches the heuristic payload assembles the heuristic
result: the heuristic findings survive normalisation unchanged, the
summary is the advisory string, and `model_info` records only the
configured provider. -/
theorem analyze_heuristic (env : AgentEnv) (pr : PRData)
    (h : agentParsed env pr = heuristic_review pr) :
    analyze_pr_with_agent env pr =
      .ok ⟨"https://github.com/" ++ pr.owner ++ "/" ++ pr.repo, pr.number,
        some pr.head_sha, heuristicIssues pr, heuristicSummary,
        [("provider", resolveProvider env.model_provider)]⟩ := by
  rw [analyze_pr_with_agent, h]
  simp only [heuristic_review, pyGet, lookupLastJ, bind, Except.bind]
  by_cases hnil : heuristicIssues pr = []
  · rw [hnil]
    simp [jTruthy, pyIter, normalizeItems, pyStrJ]
    rfl
  · have htr : jTruthy (.jarr ((heuristicIssues pr).map issueToJson)) = true := by
      match hl : heuristicIssues pr with
      | [] => exact absurd hl hnil
      | a :: tl => simp [jTruthy]
    simp [htr, pyIter, normalizeItems_dump, pyStrJ]
    rfl

/-- A failed provider call routes the run to the heuristic payload. -/
theorem agentParsed_of_error (env : AgentEnv) (pr : PRData) (e : String)
    (h : providerCall env = .error e) : agentParsed env pr = heuristic_review pr := by
  simp [agentParsed, h]

/-- A falsy provider payload (such as the empty dictionary) routes the
run to the heuristic payload just like a failure. -/
theorem agentParsed_of_falsy (env : AgentEnv) (pr : PRData) (v : JValue)
    (h : providerCall env = .ok v) (hf : jTruthy v = false) :
    agentParsed env pr = heuristic_review pr := by
  simp [agentParsed, h, hf]

/-! ## Claim C2 — fallback marking after a classified provider failure -/

/-- Counterexample to claim C2 as stated: a job whose ollama chat call
fails with the classified connection error still reaches a result, but
its `model_info` is exactly `[("provider", "ollama")]` — the same value a
successful run would carry: no entry marks the fallback path, names a
fallback provider, or records the triggering error.  (The
`provider: fallback, error: ...` marker of the task level only appears
when the agent itself raises, which a classified provider failure never
causes.) -/
theorem claim_C2_counterexample :
    ∃ res, analyze_pr_with_agent
        ⟨some "ollama", true, "llama3", .error "connection refused", false, none, .error "x"⟩
        samplePR = .ok res
      ∧ res.model_info = [("provider", "ollama")]
      ∧ ¬ (∃ kv ∈ res.model_info, kv.1 = "error" ∨ kv.2 = "fallback"
            ∨ containsSubStr "connection refused" kv.2 = true) := by
  refine ⟨⟨"https://github.com/o/r", 5, some "abc", [dbgIssue "a.py" 1], heuristicSummary,
      [("provider", "ollama")]⟩, rfl, rfl, ?_⟩
  decide

/-- Claim C2, amended: for every job whose provider invocation fails with
a classified error, the agent still returns a well-formed result built
from the heuristic analyzer — its summary is the non-empty advisory
string — and the job reaches `DONE` with it; but `model_info` records
only the configured provider name, with no marker of the fallback path or
of the triggering error. -/
theorem claim_C2 (env : AgentEnv) (pr : PRData) (tenv : TaskEnv)
    (repo_url : String) (pr_number : Int) (e : String)
    (hfail : providerCall env = .error e)
    (hagent : tenv.agent_outcome = analyze_pr_with_agent env pr)
    (hfetch : tenv.fetch_outcome = .ok pr)
    (hmiss : tenv.cache_get = .ok none) :
    ∃ res, analyze_pr_with_agent env pr = .ok res
      ∧ res.summary = heuristicSummary
      ∧ res.summary ≠ ""
      ∧ res.issues = heuristicIssues pr
      ∧ res.model_info = [("provider", resolveProvider env.model_provider)]
      ∧ analyze_pr_task tenv repo_url pr_number false = .done (resultToJson res) := by
  have hrun := analyze_heuristic env pr (agentParsed_of_error env pr e hfail)
  refine ⟨_, hrun, rfl, by simp [heuristicSummary], rfl, rfl, ?_⟩
  simp [analyze_pr_task, hfetch, hmiss, taskFresh, hagent, hrun]

/-- Witness for claim C2 amended: the classified connection failure of
the local provider on the sample snapshot. -/
theorem claim_C2_witness :
    ∃ res, analyze_pr_with_agent
        ⟨some "ollama", true, "llama3", .error "connection refused", false, none, .error "x"⟩
        samplePR = .ok res
      ∧ res.summary = heuristicSummary
      ∧ res.summary ≠ ""
      ∧ res.issues = heuristicIssues samplePR
      ∧ res.model_info = [("provider",
          resolveProvider (some "ollama" : Option String))]
      ∧ analyze_pr_task
          ⟨.ok samplePR, .ok none,
            analyze_pr_with_agent
              ⟨some "ollama", true, "llama3", .error "connection refused", false, none, .error "x"⟩
              samplePR, true⟩
          "https://github.com/o/r" 5 false = .done (resultToJson res) :=
  claim_C2
    ⟨some "ollama", true, "llama3", .error "connection refused", false, none, .error "x"⟩
    samplePR
    ⟨.ok samplePR, .ok none,
      analyze_pr_with_agent
        ⟨some "ollama", true, "llama3", .error "connection refused", false, none, .error "x"⟩
        samplePR, true⟩
    "https://github.com/o/r" 5
    ("Ollama service not running. Please start Ollama with "
      ++ (⟨[sqCh]⟩ : String) ++ "ollama serve" ++ (⟨[sqCh]⟩ : String))
    rfl rfl rfl rfl

/-! ## Claim C10 — empty parsed payload behaves as a provider failure -/

/-- Claim C10: when the provider call succeeds but its output parses to
the empty JSON object — including empty returned content, which the
remote call substitutes with the empty-object text before parsing — the
falsy-payload branch silently routes the run to the heuristic analyzer:
the result carries the heuristic summary and issues, and equals the
result of an otherwise identical run whose provider call failed
outright. -/
theorem claim_C10 (env₁ env₂ : AgentEnv) (pr : PRData) (e : String) :
    (resolveProvider env₁.model_provider = "openai" →
      env₁.openai_available = true →
      pyTruthyOptStr env₁.openai_api_key = true →
      (env₁.openai_chat = .ok none ∨ env₁.openai_chat = .ok (some "")) →
      providerCall env₁ = .ok (.jobj []))
    ∧ (providerCall env₁ = .ok (.jobj []) →
      analyze_pr_with_agent env₁ pr =
        .ok ⟨"https://github.com/" ++ pr.owner ++ "/" ++ pr.repo, pr.number,
          some pr.head_sha, heuristicIssues pr, heuristicSummary,
          [("provider", resolveProvider env₁.model_provider)]⟩)
    ∧ (providerCall env₁ = .ok (.jobj []) →
      providerCall env₂ = .error e →
      resolveProvider env₁.model_provider = resolveProvider env₂.model_provider →
      analyze_pr_with_agent env₁ pr = analyze_pr_with_agent env₂ pr) := by
  refine ⟨?_, ?_, ?_⟩
  · intro hres havail hkey hchat
    rw [providerCall, if_pos (by rw [hres]; rfl)]
    rcases hchat with hchat | hchat <;>
      (rw [call_openai, if_neg (by rw [havail]; simp), if_neg (by rw [hkey]; simp), hchat]; rfl)
  · intro hok
    exact analyze_heuristic env₁ pr (agentParsed_of_falsy env₁ pr (.jobj []) hok rfl)
  · intro hok herr hprov
    rw [analyze_heuristic env₁ pr (agentParsed_of_falsy env₁ pr (.jobj []) hok rfl),
      analyze_heuristic env₂ pr (agentParsed_of_error env₂ pr e herr), hprov]

/-- Witness for claim C10: an openai-configured run whose chat returns
the empty string as content yields exactly the result of the run whose
chat raised. -/
theorem claim_C10_witness :
    (providerCall ⟨some "openai", false, "m", .error "x", true, some "sk", .ok (some "")⟩
        = .ok (.jobj []))
    ∧ analyze_pr_with_agent
        ⟨some "openai", false, "m", .error "x", true, some "sk", .ok (some "")⟩ samplePR =
      .ok ⟨"https://github.com/o/r", 5, some "abc", heuristicIssues samplePR,
        heuristicSummary, [("provider", "openai")]⟩
    ∧ analyze_pr_with_agent
        ⟨some "openai", false, "m", .error "x", true, some "sk", .ok (some "")⟩ samplePR =
      analyze_pr_with_agent
        ⟨some "openai", false, "m", .error "x", true, some "sk", .error "boom"⟩ samplePR := by
  have h := claim_C10
    ⟨some "openai", false, "m", .error "x", true, some "sk", .ok (some "")⟩
    ⟨some "openai", false, "m", .error "x", true, some "sk", .error "boom"⟩
    samplePR "OpenAI API error: boom"
  refine ⟨h.1 rfl rfl rfl (Or.inr rfl), ?_, h.2.2 (h.1 rfl rfl rfl (Or.inr rfl)) rfl rfl⟩
  exact h.2.1 (h.1 rfl rfl rfl (Or.inr rfl))

/-! ## Claim C6 — heuristic scan characterisation -/

theorem mem_linesIssues (fname : String) (iss : AnalysisIssue) :
    ∀ (start : Nat) (lines : List (List Char)),
    iss ∈ linesIssues fname start lines ↔
      ∃ k l, lines[k]? = some l ∧ iss ∈ lineIssues fname (start + k) l := by
  intro start lines
  induction lines generalizing start with
  | nil => simp [linesIssues]
  | cons l tl ih =>
    simp only [linesIssues, List.mem_append, ih (start + 1)]
    constructor
    · rintro (h | ⟨k, l', hk, hmem⟩)
      · exact ⟨0, l, by simp, by simpa using h⟩
      · exact ⟨k + 1, l', by simpa using hk, by rw [show start + (k + 1) = start + 1 + k by omega]; exact hmem⟩
    · rintro ⟨k, l', hk, hmem⟩
      match k with
      | 0 =>
        left
        simp only [List.getElem?_cons_zero, Option.some.injEq] at hk
        subst hk
        simpa using hmem
      | k + 1 =>
        right
        exact ⟨k, l', by simpa using hk,
          by rw [show start + 1 + k = start + (k + 1) by omega]; exact hmem⟩

theorem mem_heuristicIssues (pr : PRData) (iss : AnalysisIssue) :
    iss ∈ heuristicIssues pr ↔
      ∃ f ∈ pr.files, ∃ p, f.patch = some p ∧ p.isEmpty = false ∧
        ∃ k l, (splitlinesL p.data)[k]? = some l ∧ iss ∈ lineIssues f.filename (1 + k) l := by
  rw [heuristicIssues, List.mem_flatMap]
  constructor
  · rintro ⟨f, hf, hmem⟩
    refine ⟨f, hf, ?_⟩
    match hp : f.patch with
    | none =>
      rw [fileIssues, hp] at hmem
      dsimp only at hmem
      cases hmem
    | some p =>
      rw [fileIssues, hp] at hmem
      dsimp only at hmem
      by_cases hemp : p.isEmpty = true
      · rw [if_pos hemp] at hmem; cases hmem
      · rw [if_neg hemp] at hmem
        obtain ⟨k, l, hk, hm⟩ := (mem_linesIssues f.filename iss 1 (splitlinesL p.data)).mp hmem
        exact ⟨p, rfl, by simpa using hemp, k, l, hk, hm⟩
  · rintro ⟨f, hf, p, hp, hemp, k, l, hk, hm⟩
    refine ⟨f, hf, ?_⟩
    rw [fileIssues, hp]
    dsimp only
    rw [if_neg (by simp [hemp])]
    exact (mem_linesIssues f.filename iss 1 (splitlinesL p.data)).mpr ⟨k, l, hk, hm⟩

theorem mem_ite_singleton (c : Prop) [Decidable c] (x y : AnalysisIssue) :
    (x ∈ if c then [y] else []) ↔ c ∧ x = y := by
  by_cases h : c <;> simp [h]

/-- Findings of one line, spelled out: the line must carry the insertion
marker, and the finding is one of the three templates, each coming with
its own trigger on the content past the marker. -/
theorem mem_lineIssues_iff (iss : AnalysisIssue) (fname : String) (i : Nat) (l : List Char) :
    iss ∈ lineIssues fname i l ↔
      startsWithL ['+'] l = true ∧
      ((iss = dbgIssue fname i ∧
          (containsSub "print(".data (l.drop 1)
            || containsSub "console.log(".data (l.drop 1)) = true)
        ∨ (iss = longIssue fname i ∧ (l.drop 1).length > 120)
        ∨ (iss = todoIssue fname i ∧
          (containsSub "TODO".data (l.drop 1)
            || containsSub "FIXME".data (l.drop 1)) = true)) := by
  unfold lineIssues
  by_cases hplus : startsWithL ['+'] l = true
  · rw [if_pos hplus]
    simp only [hplus, eq_self_iff_true, true_and, List.mem_append, mem_ite_singleton]
    tauto
  · simp [hplus]

theorem dbg_mem_heuristic (pr : PRData) (fname : String) (idx : Nat) :
    dbgIssue fname idx ∈ heuristicIssues pr ↔
      ∃ f ∈ pr.files, f.filename = fname ∧ ∃ p, f.patch = some p ∧ p.isEmpty = false ∧
        ∃ k l, (splitlinesL p.data)[k]? = some l ∧ idx = k + 1
          ∧ startsWithL ['+'] l = true
          ∧ (containsSub "print(".data (l.drop 1)
              || containsSub "console.log(".data (l.drop 1)) = true := by
  rw [mem_heuristicIssues]
  constructor
  · rintro ⟨f, hf, p, hp, hemp, k, l, hk, hm⟩
    rw [mem_lineIssues_iff] at hm
    obtain ⟨hplus, hcase⟩ := hm
    rcases hcase with ⟨heq, hc⟩ | ⟨heq, _⟩ | ⟨heq, _⟩
    · have hfn : f.filename = fname := by
        have h2 := congrArg AnalysisIssue.file_path heq
        simpa [dbgIssue] using h2.symm
      have hidx : idx = 1 + k := by
        have h2 := congrArg AnalysisIssue.line heq
        simp [dbgIssue] at h2
        omega
      exact ⟨f, hf, hfn, p, hp, hemp, k, l, hk, by omega, hplus, hc⟩
    · exact absurd (congrArg AnalysisIssue.message heq) (by simp [dbgIssue, longIssue])
    · exact absurd (congrArg AnalysisIssue.message heq) (by simp [dbgIssue, todoIssue])
  · rintro ⟨f, hf, hfn, p, hp, hemp, k, l, hk, hidx, hplus, hc⟩
    refine ⟨f, hf, p, hp, hemp, k, l, hk, ?_⟩
    rw [mem_lineIssues_iff]
    exact ⟨hplus, .inl ⟨by rw [hfn, hidx, Nat.add_comm], hc⟩⟩

theorem long_mem_heuristic (pr : PRData) (fname : String) (idx : Nat) :
    longIssue fname idx ∈ heuristicIssues pr ↔
      ∃ f ∈ pr.files, f.filename = fname ∧ ∃ p, f.patch = some p ∧ p.isEmpty = false ∧
        ∃ k l, (splitlinesL p.data)[k]? = some l ∧ idx = k + 1
          ∧ startsWithL ['+'] l = true
          ∧ (l.drop 1).length > 120 := by
  rw [mem_heuristicIssues]
  constructor
  · rintro ⟨f, hf, p, hp, hemp, k, l, hk, hm⟩
    rw [mem_lineIssues_iff] at hm
    obtain ⟨hplus, hcase⟩ := hm
    rcases hcase with ⟨heq, _⟩ | ⟨heq, hc⟩ | ⟨heq, _⟩
    · exact absurd (congrArg AnalysisIssue.message heq) (by simp [dbgIssue, longIssue])
    · have hfn : f.filename = fname := by
        have h2 := congrArg AnalysisIssue.file_path heq
        simpa [longIssue] using h2.symm
      have hidx : idx = 1 + k := by
        have h2 := congrArg AnalysisIssue.line heq
        simp [longIssue] at h2
        omega
      exact ⟨f, hf, hfn, p, hp, hemp, k, l, hk, by omega, hplus, hc⟩
    · exact absurd (congrArg AnalysisIssue.message heq) (by simp [longIssue, todoIssue])
  · rintro ⟨f, hf, hfn, p, hp, hemp, k, l, hk, hidx, hplus, hc⟩
    refine ⟨f, hf, p, hp, hemp, k, l, hk, ?_⟩
    rw [mem_lineIssues_iff]
    exact ⟨hplus, .inr (.inl ⟨by rw [hfn, hidx, Nat.add_comm], hc⟩)⟩

theorem todo_mem_heuristic (pr : PRData) (fname : String) (idx : Nat) :
    todoIssue fname idx ∈ heuristicIssues pr ↔
      ∃ f ∈ pr.files, f.filename = fname ∧ ∃ p, f.patch = some p ∧ p.isEmpty = false ∧
        ∃ k l, (splitlinesL p.data)[k]? = some l ∧ idx = k + 1
          ∧ startsWithL ['+'] l = true
          ∧ (containsSub "TODO".data (l.drop 1)
              || containsSub "FIXME".data (l.drop 1)) = true := by
  rw [mem_heuristicIssues]
  constructor
  · rintro ⟨f, hf, p, hp, hemp, k, l, hk, hm⟩
    rw [mem_lineIssues_iff] at hm
    obtain ⟨hplus, hcase⟩ := hm
    rcases hcase with ⟨heq, _⟩ | ⟨heq, _⟩ | ⟨heq, hc⟩
    · exact absurd (congrArg AnalysisIssue.message heq) (by simp [dbgIssue, todoIssue])
    · exact absurd (congrArg AnalysisIssue.message heq) (by simp [longIssue, todoIssue])
    · have hfn : f.filename = fname := by
        have h2 := congrArg AnalysisIssue.file_path heq
        simpa [todoIssue] using h2.symm
      have hidx : idx = 1 + k := by
        have h2 := congrArg AnalysisIssue.line heq
        simp [todoIssue] at h2
        omega
      exact ⟨f, hf, hfn, p, hp, hemp, k, l, hk, by omega, hplus, hc⟩
  · rintro ⟨f, hf, hfn, p, hp, hemp, k, l, hk, hidx, hplus, hc⟩
    refine ⟨f, hf, p, hp, hemp, k, l, hk, ?_⟩
    rw [mem_lineIssues_iff]
    exact ⟨hplus, .inr (.inr ⟨by rw [hfn, hidx, Nat.add_comm], hc⟩)⟩

/-- Claim C6: the heuristic analyzer scans only added lines (those
prefixed `+`) of files with truthy patch text, numbering patch lines from
one; a `warning`/`best_practice` debug-print finding for a given file and
line is emitted exactly when that added line contains a debug-print
pattern, an `info`/`style` finding exactly when its content past the
marker exceeds 120 characters, and an `info`/`best_practice` finding
exactly when it contains `TODO` or `FIXME`; and the single-line diff
`+    print("debug")` yields exactly the one warning/best-practice
finding. -/
theorem claim_C6 :
    (∀ (pr : PRData) (fname : String) (idx : Nat),
      dbgIssue fname idx ∈ heuristicIssues pr ↔
        ∃ f ∈ pr.files, f.filename = fname ∧ ∃ p, f.patch = some p ∧ p.isEmpty = false ∧
          ∃ k l, (splitlinesL p.data)[k]? = some l ∧ idx = k + 1
            ∧ startsWithL ['+'] l = true
            ∧ (containsSub "print(".data (l.drop 1)
                || containsSub "console.log(".data (l.drop 1)) = true)
    ∧ (∀ (pr : PRData) (fname : String) (idx : Nat),
      longIssue fname idx ∈ heuristicIssues pr ↔
        ∃ f ∈ pr.files, f.filename = fname ∧ ∃ p, f.patch = some p ∧ p.isEmpty = false ∧
          ∃ k l, (splitlinesL p.data)[k]? = some l ∧ idx = k + 1
            ∧ startsWithL ['+'] l = true
            ∧ (l.drop 1).length > 120)
    ∧ (∀ (pr : PRData) (fname : String) (idx : Nat),
      todoIssue fname idx ∈ heuristicIssues pr ↔
        ∃ f ∈ pr.files, f.filename = fname ∧ ∃ p, f.patch = some p ∧ p.isEmpty = false ∧
          ∃ k l, (splitlinesL p.data)[k]? = some l ∧ idx = k + 1
            ∧ startsWithL ['+'] l = true
            ∧ (containsSub "TODO".data (l.drop 1)
                || containsSub "FIXME".data (l.drop 1)) = true)
    ∧ heuristicIssues samplePR = [dbgIssue "a.py" 1] :=
  ⟨dbg_mem_heuristic, long_mem_heuristic, todo_mem_heuristic, rfl⟩

/-! ## Claim C8 — the dump and reload round trip

The counterexample to the parser-idempotence claim needs the converse
guarantee to stand on: whenever the re-serialised text contains no fenced
block, reparsing it recovers the value exactly.  The lemmas of this
section establish `jsonLoadsL (jdumpV v) = some v` for every value, by
the usual inverse lemmas for numbers, strings, and a fuelled mutual
induction for the structure. -/

/-- The head of a possibly empty remainder, for the greedy number scan:
nothing a spelled number could swallow. -/
def headNotDigit : List Char → Bool
  | [] => true
  | c :: _ => !digitCh c

theorem digitCharOf_digit : ∀ k, k < 10 → digitCh (digitCharOf k) = true := by decide

theorem digitCharOf_val : ∀ k, k < 10 → (digitCharOf k).toNat - 48 = k := by decide

theorem digitCharOf_ne_zero : ∀ k, k < 10 → 0 < k → digitCharOf k ≠ '0' := by decide

theorem natChars_append (n : Nat) : ∀ acc, natChars n acc = natChars n [] ++ acc := by
  induction n using Nat.strong_induction_on with
  | _ n ih =>
    intro acc
    by_cases h10 : n < 10
    · rw [natChars_eq, if_pos h10, natChars_eq, if_pos h10]
      rfl
    · have hlt : n / 10 < n := Nat.div_lt_self (by omega) (by omega)
      rw [natChars_eq, if_neg h10, natChars_eq n [], if_neg h10,
        ih (n / 10) hlt, ih (n / 10) hlt [digitCharOf (n % 10)]]
      simp

/-- One recursion step of `natChars`, with the last digit split off. -/
theorem natChars_snoc (n : Nat) :
    natChars n [] = (if n < 10 then [] else natChars (n / 10) [])
      ++ [digitCharOf (n % 10)] := by
  by_cases h10 : n < 10
  · rw [natChars_eq, if_pos h10, if_pos h10]
    simp [Nat.mod_eq_of_lt h10]
  · rw [natChars_eq, if_neg h10, if_neg h10, natChars_append]

theorem natChars_ne_nil (n : Nat) : natChars n [] ≠ [] := by
  rw [natChars_snoc]
  simp

theorem natChars_digits (n : Nat) : ∀ c ∈ natChars n [], digitCh c = true := by
  induction n using Nat.strong_induction_on with
  | _ n ih =>
    intro c hc
    rw [natChars_snoc] at hc
    rcases List.mem_append.mp hc with h | h
    · by_cases h10 : n < 10
      · simp [h10] at h
      · exact ih (n / 10) (Nat.div_lt_self (by omega) (by omega)) c (by simpa [h10] using h)
    · rw [List.mem_singleton] at h
      subst h
      exact digitCharOf_digit (n % 10) (Nat.mod_lt _ (by omega))

theorem digitsVal_natChars (n : Nat) : digitsVal (natChars n []) = n := by
  induction n using Nat.strong_induction_on with
  | _ n ih =>
    rw [natChars_snoc]
    by_cases h10 : n < 10
    · simp [if_pos h10, digitsVal, digitCharOf_val n h10, Nat.mod_eq_of_lt h10]
    · rw [if_neg h10]
      rw [digitsVal, List.foldl_append]
      have hval := ih (n / 10) (Nat.div_lt_self (by omega) (by omega))
      rw [digitsVal] at hval
      rw [hval]
      simp [digitCharOf_val (n % 10) (Nat.mod_lt _ (by omega))]
      omega

theorem natChars_head_pos (n : Nat) (hn : 1 ≤ n) :
    ∃ c t, natChars n [] = c :: t ∧ digitCh c = true ∧ c ≠ '0' := by
  induction n using Nat.strong_induction_on with
  | _ n ih =>
    by_cases h10 : n < 10
    · refine ⟨digitCharOf n, [], by rw [natChars_eq, if_pos h10], digitCharOf_digit n h10,
        digitCharOf_ne_zero n h10 (by omega)⟩
    · obtain ⟨c, t, hct, hd, hz⟩ :=
        ih (n / 10) (Nat.div_lt_self (by omega) (by omega)) (by omega)
      refine ⟨c, t ++ [digitCharOf (n % 10)], ?_, hd, hz⟩
      rw [natChars_snoc, if_neg h10, hct]
      rfl

theorem digitSpan_stop (l : List Char) (h : headNotDigit l = true) :
    digitSpan l = ([], l) := by
  match l with
  | [] => rfl
  | c :: tl =>
    simp only [headNotDigit, Bool.not_eq_true'] at h
    simp [digitSpan, h]

theorem digitSpan_run (ds : List Char) (hds : ∀ c ∈ ds, digitCh c = true)
    (rest : List Char) (hrest : headNotDigit rest = true) :
    digitSpan (ds ++ rest) = (ds, rest) := by
  induction ds with
  | nil => simpa using digitSpan_stop rest hrest
  | cons c tl ih =>
    have hc : digitCh c = true := hds c (by simp)
    have htl := ih (fun x hx => hds x (by simp [hx]))
    simp [digitSpan, hc, htl]

theorem jreadNumBody_natChars (n : Nat) (rest : List Char)
    (hrest : headNotDigit rest = true) :
    jreadNumBody (natChars n [] ++ rest) = some ((n : Int), rest) := by
  by_cases hz : n = 0
  · subst hz
    rw [show natChars 0 [] = ['0'] from rfl]
    rfl
  · obtain ⟨c, t, hct, hd, hz0⟩ := natChars_head_pos n (by omega)
    have hspan : digitSpan (natChars n [] ++ rest) = (natChars n [], rest) :=
      digitSpan_run _ (natChars_digits n) rest hrest
    rw [hct] at hspan ⊢
    rw [List.cons_append, jreadNumBody]
    rw [if_neg (by simpa using hz0), if_pos hd]
    rw [← List.cons_append, hspan]
    dsimp only
    have hval : digitsVal (c :: t) = n := by
      have h2 := digitsVal_natChars n
      rwa [hct] at h2
    rw [hval]

theorem jreadNum_dump (i : Int) (rest : List Char)
    (hrest : headNotDigit rest = true) :
    jreadNum (intChars i ++ rest) = some (i, rest) := by
  by_cases hneg : i < 0
  · rw [intChars, if_pos hneg, List.cons_append, jreadNum]
    rw [if_pos (beq_self_eq_true '-'), jreadNumBody_natChars i.natAbs rest hrest]
    have hcast : -(i.natAbs : Int) = i := by omega
    rw [Option.map_some']
    dsimp only
    rw [hcast]
  · rw [intChars, if_neg hneg]
    obtain ⟨c, t, hct, hd, _⟩ : ∃ c t, natChars i.natAbs [] = c :: t ∧ digitCh c = true
        ∧ (i.natAbs = 0 → c = '0') := by
      by_cases hz : i.natAbs = 0
      · exact ⟨'0', [], by rw [hz]; rfl, rfl, fun _ => rfl⟩
      · obtain ⟨c, t, hct, hd, hz0⟩ := natChars_head_pos i.natAbs (by omega)
        exact ⟨c, t, hct, hd, fun h => absurd h hz⟩
    have hbody := jreadNumBody_natChars i.natAbs rest hrest
    rw [hct] at hbody ⊢
    rw [List.cons_append, jreadNum]
    have hcm : ¬ (c == '-') = true := by
      simp only [beq_iff_eq]
      intro hcm
      subst hcm
      exact absurd hd (by decide)
    rw [if_neg hcm]
    rw [← List.cons_append, hbody]
    have hcast : (i.natAbs : Int) = i := by omega
    rw [hcast]

theorem hexQuad_ctrl : ∀ t, t < 32 →
    hexQuad '0' '0' (digitCharOf (t / 16))
      (if t % 16 < 10 then digitCharOf (t % 16) else Char.ofNat (97 + (t % 16 - 10)))
    = some t := by decide

theorem jreadStrF_literal (fuel : Nat) (c : Char) (acc rest : List Char)
    (h1 : c ≠ '"') (h2 : c ≠ '\\') (h3 : 32 ≤ c.toNat) :
    jreadStrF (fuel + 1) acc (c :: rest) = jreadStrF fuel (c :: acc) rest := by
  rw [jreadStrF]
  rw [if_neg (by simpa using h1), if_neg (by simpa using h2), if_neg (by omega)]

theorem jreadStrF_esc (fuel : Nat) (c : Char) (acc rest : List Char) :
    jreadStrF (fuel + 1) acc (jsonEscCh c ++ rest) = jreadStrF fuel (c :: acc) rest := by
  by_cases hq : c = '"'
  · subst hq; rfl
  by_cases hb : c = '\\'
  · subst hb; rfl
  by_cases hn : c = '\n'
  · subst hn; rfl
  by_cases hr : c = '\r'
  · subst hr; rfl
  by_cases ht : c = '\t'
  · subst ht; rfl
  by_cases h8 : c = '\x08'
  · subst h8; rfl
  by_cases hf : c = '\x0c'
  · subst hf; rfl
  by_cases hlt : c.toNat < 32
  · have hesc : jsonEscCh c =
        ['\\', 'u', '0', '0', digitCharOf (c.toNat / 16),
          if c.toNat % 16 < 10 then digitCharOf (c.toNat % 16)
          else Char.ofNat (97 + (c.toNat % 16 - 10))] := by
      rw [jsonEscCh, if_neg (by simpa using hq), if_neg (by simpa using hb),
        if_neg (by simpa using hn), if_neg (by simpa using hr), if_neg (by simpa using ht),
        if_neg (by simpa using h8), if_neg (by simpa using hf), if_pos hlt]
    rw [hesc]
    simp only [List.cons_append, List.nil_append]
    rw [jreadStrF]
    rw [if_neg (by decide), if_pos (by decide)]
    rw [readEsc, if_pos (by decide)]
    rw [readUEscBody]
    rw [hexQuad_ctrl c.toNat hlt]
    dsimp only
    rw [if_neg (by omega), if_neg (by omega)]
    dsimp only
    rw [Char.ofNat_toNat]
  · have hesc : jsonEscCh c = [c] := by
      rw [jsonEscCh, if_neg (by simpa using hq), if_neg (by simpa using hb),
        if_neg (by simpa using hn), if_neg (by simpa using hr), if_neg (by simpa using ht),
        if_neg (by simpa using h8), if_neg (by simpa using hf), if_neg hlt]
    rw [hesc]
    simp only [List.cons_append, List.nil_append]
    exact jreadStrF_literal fuel c acc rest hq hb (by omega)

theorem jreadStrF_escList (cs : List Char) : ∀ fuel acc rest, cs.length < fuel →
    jreadStrF fuel acc (jsonEscL cs ++ '"' :: rest) = some (⟨acc.reverse ++ cs⟩, rest) := by
  induction cs with
  | nil =>
    intro fuel acc rest hfl
    match fuel, hfl with
    | fuel + 1, _ => simp [jsonEscL, jreadStrF]
  | cons c tl ih =>
    intro fuel acc rest hfl
    match fuel, hfl with
    | fuel + 1, hfl =>
      rw [jsonEscL, List.append_assoc, jreadStrF_esc,
        ih fuel (c :: acc) rest (by simpa using Nat.lt_of_succ_lt_succ hfl)]
      simp

theorem jsonEscCh_length_pos (c : Char) : 1 ≤ (jsonEscCh c).length := by
  rw [jsonEscCh]
  repeat' split
  all_goals simp

theorem jsonEscL_length_ge (cs : List Char) : cs.length ≤ (jsonEscL cs).length := by
  induction cs with
  | nil => simp [jsonEscL]
  | cons c tl ih =>
    rw [jsonEscL]
    have := jsonEscCh_length_pos c
    simp only [List.length_append, List.length_cons]
    omega

theorem jsonStrL_read (s : String) (rest : List Char) :
    jreadStr [] (jsonEscL s.data ++ '"' :: rest) = some (s, rest) := by
  rw [jreadStr]
  rw [jreadStrF_escList s.data _ [] rest
    (by have := jsonEscL_length_ge s.data; simp only [List.length_append, List.length_cons]; omega)]
  cases s
  simp

/-! ## Round trip of the modelled dumps and loads -/

theorem beq_false_of_digit {c t : Char} (h : digitCh c = true) (ht : digitCh t = false) :
    (c == t) = false := by
  simp only [beq_eq_false_iff_ne]
  intro he
  rw [he, ht] at h
  exact Bool.false_ne_true h

theorem pws_of_digit {c : Char} (h : digitCh c = true) : pwsChar c = false := by
  cases hb : pwsChar c
  · rfl
  · exfalso
    have hc : c = ' ' ∨ c = '\t' ∨ c = '\n' ∨ c = '\r' ∨ c = '\x0b' ∨ c = '\x0c' := by
      simpa [pwsChar, Bool.or_eq_true, beq_iff_eq, or_assoc] using hb
    rcases hc with h1 | h1 | h1 | h1 | h1 | h1 <;> subst h1 <;> exact absurd h (by decide)

theorem jws_of_pws {c : Char} (h : pwsChar c = false) : jwsChar c = false := by
  simp only [pwsChar, Bool.or_eq_false_iff] at h
  simp only [jwsChar, Bool.or_eq_false_iff]
  exact h.1.1

theorem numHead_facts {c : Char} (h : (c == '-' || digitCh c) = true) :
    jwsChar c = false ∧ (c == '"') = false ∧ (c == '[') = false ∧ (c == '\x7b') = false ∧
    (c == 'n') = false ∧ (c == 't') = false ∧ (c == 'f') = false := by
  rcases (Bool.or_eq_true _ _).mp h with hm | hd
  · have hc : c = '-' := by simpa using hm
    subst hc
    exact ⟨by decide, by decide, by decide, by decide, by decide, by decide, by decide⟩
  · refine ⟨?_, beq_false_of_digit hd (by decide), beq_false_of_digit hd (by decide),
      beq_false_of_digit hd (by decide), beq_false_of_digit hd (by decide),
      beq_false_of_digit hd (by decide), beq_false_of_digit hd (by decide)⟩
    cases hb : jwsChar c
    · rfl
    · exfalso
      have hc : c = ' ' ∨ c = '\t' ∨ c = '\n' ∨ c = '\r' := by
        simpa [jwsChar, Bool.or_eq_true, beq_iff_eq, or_assoc] using hb
      rcases hc with h1 | h1 | h1 | h1 <;> subst h1 <;> exact absurd hd (by decide)

theorem jdumpV_ne_nil (v : JValue) : jdumpV v ≠ [] := by
  cases v with
  | jnull => simp [jdumpV]
  | jbool b => cases b <;> simp [jdumpV]
  | jnum i =>
    show intChars i ≠ []
    rw [intChars]
    split
    · simp
    · exact natChars_ne_nil _
  | jstr s => show jsonStrL s ≠ []; rw [jsonStrL]; simp
  | jarr xs => simp [jdumpV]
  | jobj kvs => simp [jdumpV]

theorem intChars_head (i : Int) :
    ∃ c t, intChars i = c :: t ∧ (c == '-' || digitCh c) = true := by
  rw [intChars]
  by_cases hneg : i < 0
  · rw [if_pos hneg]
    exact ⟨'-', _, rfl, by decide⟩
  · rw [if_neg hneg]
    rcases Nat.eq_zero_or_pos i.natAbs with hz | hp
    · rw [hz]
      exact ⟨'0', [], rfl, by decide⟩
    · obtain ⟨c, t, hct, hdg, _⟩ := natChars_head_pos i.natAbs hp
      exact ⟨c, t, hct, by rw [hdg, Bool.or_true]⟩

theorem jdumpV_head (v : JValue) : ∃ c tl, jdumpV v = c :: tl ∧
    pwsChar c = false ∧ (c == ']') = false ∧ (c == '`') = false := by
  cases v with
  | jnull => exact ⟨'n', _, rfl, by decide, by decide, by decide⟩
  | jbool b =>
    cases b with
    | false => exact ⟨'f', _, rfl, by decide, by decide, by decide⟩
    | true => exact ⟨'t', _, rfl, by decide, by decide, by decide⟩
  | jnum i =>
    obtain ⟨c, t, hct, hnum⟩ := intChars_head i
    rcases (Bool.or_eq_true _ _).mp hnum with hm | hd
    · have hc : c = '-' := by simpa using hm
      subst hc
      exact ⟨'-', t, hct, by decide, by decide, by decide⟩
    · exact ⟨c, t, hct, pws_of_digit hd, beq_false_of_digit hd (by decide),
        beq_false_of_digit hd (by decide)⟩
  | jstr s => exact ⟨'"', _, rfl, by decide, by decide, by decide⟩
  | jarr xs => exact ⟨'[', _, rfl, by decide, by decide, by decide⟩
  | jobj kvs => exact ⟨'\x7b', _, rfl, by decide, by decide, by decide⟩

theorem rtAll : ∀ fuel : Nat,
    (∀ v rest, (jdumpV v).length ≤ fuel → headNotDigit rest = true →
      jreadV fuel (jdumpV v ++ rest) = some (v, rest)) ∧
    (∀ vs rest, vs ≠ [] → (jdumpItems vs).length < fuel →
      jreadItems fuel (jdumpItems vs ++ ']' :: rest) = some (vs, rest)) ∧
    (∀ ps rest, ps ≠ [] → (jdumpPairs ps).length < fuel →
      jreadPairs fuel (jdumpPairs ps ++ '\x7d' :: rest) = some (ps, rest)) := by
  intro fuel
  induction fuel with
  | zero =>
    refine ⟨fun v rest hlen _ => ?_, fun vs rest hne hlen => ?_, fun ps rest hne hlen => ?_⟩
    · exact absurd (List.length_eq_zero.mp (Nat.le_zero.mp hlen)) (jdumpV_ne_nil v)
    · omega
    · omega
  | succ f ih =>
    obtain ⟨ihV, ihI, ihP⟩ := ih
    refine ⟨fun v rest hlen hrest => ?_, fun vs rest hne hlen => ?_, fun ps rest hne hlen => ?_⟩
    · cases v with
      | jnull => rfl
      | jbool b => cases b <;> rfl
      | jnum i =>
        obtain ⟨c0, t0, hd0, hnum⟩ := intChars_head i
        obtain ⟨hws, hq, hlb, hcb, hn, ht, hf⟩ := numHead_facts hnum
        have hL : jdumpV (.jnum i) ++ rest = c0 :: (t0 ++ rest) := by
          show intChars i ++ rest = _
          rw [hd0, List.cons_append]
        rw [hL, jreadV, List.dropWhile_cons, if_neg (by simp [hws])]
        dsimp only
        rw [if_neg (by simp [hq]), if_neg (by simp [hlb]), if_neg (by simp [hcb]),
          if_neg (by simp [hn]), if_neg (by simp [ht]), if_neg (by simp [hf]),
          if_pos hnum]
        rw [← List.cons_append, ← hd0]
        show (match jreadNum (intChars i ++ rest) with
          | some (n, r) => some (JValue.jnum n, r) | none => none) = _
        rw [jreadNum_dump i rest hrest]
      | jstr s =>
        have hL : jdumpV (.jstr s) ++ rest = '"' :: (jsonEscL s.data ++ '"' :: rest) := by
          show jsonStrL s ++ rest = _
          rw [jsonStrL, List.cons_append, List.append_assoc]
          simp
        rw [hL, jreadV, List.dropWhile_cons, if_neg (by decide)]
        dsimp only
        rw [if_pos (by decide)]
        rw [jsonStrL_read s rest]
      | jarr xs =>
        cases xs with
        | nil => rfl
        | cons x tl =>
          have hlen2 : (jdumpItems (x :: tl)).length < f := by
            have he : jdumpV (.jarr (x :: tl)) = '[' :: (jdumpItems (x :: tl) ++ [']']) := rfl
            rw [he] at hlen
            simp only [List.length_cons, List.length_append, List.length_singleton] at hlen
            omega
          have hL : jdumpV (.jarr (x :: tl)) ++ rest
              = '[' :: (jdumpItems (x :: tl) ++ ']' :: rest) := by
            show ('[' :: (jdumpItems (x :: tl) ++ [']'])) ++ rest = _
            simp [List.append_assoc]
          rw [hL, jreadV, List.dropWhile_cons, if_neg (by decide)]
          dsimp only
          rw [if_neg (by decide), if_pos (by decide)]
          obtain ⟨c0, t0, hd0, hpw0, hrb0, _⟩ := jdumpV_head x
          obtain ⟨t1, hI⟩ : ∃ t1, jdumpItems (x :: tl) = c0 :: t1 := by
            cases tl with
            | nil => exact ⟨t0, by show jdumpV x = _; exact hd0⟩
            | cons y ys =>
              refine ⟨t0 ++ ',' :: jdumpItems (y :: ys), ?_⟩
              show jdumpV x ++ ',' :: jdumpItems (y :: ys) = _
              rw [hd0, List.cons_append]
          rw [hI, List.cons_append, List.dropWhile_cons]
          rw [if_neg (show ¬(jwsChar c0 = true) by simp [jws_of_pws hpw0])]
          rw [if_neg (show ¬((c0 :: (t1 ++ ']' :: rest)).head? = some ']') by
            simp only [List.head?_cons, Option.some.injEq]
            intro hh
            rw [hh] at hrb0
            simp at hrb0)]
          rw [← List.cons_append, ← hI]
          rw [ihI (x :: tl) rest (by simp) hlen2]
      | jobj kvs =>
        cases kvs with
        | nil => rfl
        | cons hd tl =>
          have hlen2 : (jdumpPairs (hd :: tl)).length < f := by
            have he : jdumpV (.jobj (hd :: tl)) = '\x7b' :: (jdumpPairs (hd :: tl) ++ ['\x7d']) := rfl
            rw [he] at hlen
            simp only [List.length_cons, List.length_append, List.length_singleton] at hlen
            omega
          have hL : jdumpV (.jobj (hd :: tl)) ++ rest
              = '\x7b' :: (jdumpPairs (hd :: tl) ++ '\x7d' :: rest) := by
            show ('\x7b' :: (jdumpPairs (hd :: tl) ++ ['\x7d'])) ++ rest = _
            simp [List.append_assoc]
          rw [hL, jreadV, List.dropWhile_cons, if_neg (by decide)]
          dsimp only
          rw [if_neg (by decide), if_neg (by decide), if_pos (by decide)]
          obtain ⟨t1, hP⟩ : ∃ t1, jdumpPairs (hd :: tl) = '"' :: t1 := by
            obtain ⟨k, v⟩ := hd
            cases tl with
            | nil =>
              refine ⟨(jsonEscL k.data ++ ['"']) ++ ':' :: jdumpV v, ?_⟩
              show jsonStrL k ++ ':' :: jdumpV v = _
              simp [jsonStrL, List.cons_append]
            | cons q ql =>
              refine ⟨((jsonEscL k.data ++ ['"']) ++ ':' :: jdumpV v) ++ ',' :: jdumpPairs (q :: ql), ?_⟩
              show (jsonStrL k ++ ':' :: jdumpV v) ++ ',' :: jdumpPairs (q :: ql) = _
              simp [jsonStrL, List.cons_append]
          rw [hP, List.cons_append, List.dropWhile_cons]
          rw [if_neg (show ¬(jwsChar '"' = true) by decide)]
          rw [if_neg (show ¬((('"' : Char) :: (t1 ++ '\x7d' :: rest)).head? = some '\x7d') by simp)]
          rw [← List.cons_append, ← hP]
          rw [ihP (hd :: tl) rest (by simp) hlen2]
    · cases vs with
      | nil => exact absurd rfl hne
      | cons x tl =>
        cases tl with
        | nil =>
          have hlx : (jdumpV x).length ≤ f := by
            rw [show jdumpItems [x] = jdumpV x from rfl] at hlen
            omega
          rw [jreadItems, show jdumpItems [x] = jdumpV x from rfl]
          rw [ihV x (']' :: rest) hlx rfl]
          dsimp only
          rw [List.dropWhile_cons, if_neg (by decide)]
          dsimp only
          rw [if_neg (by decide), if_pos (by decide)]
        | cons y ys =>
          have hsplit : jdumpItems (x :: y :: ys) = jdumpV x ++ ',' :: jdumpItems (y :: ys) := rfl
          have hlens : (jdumpV x).length ≤ f ∧ (jdumpItems (y :: ys)).length < f := by
            rw [hsplit] at hlen
            simp only [List.length_append, List.length_cons] at hlen
            constructor <;> omega
          rw [jreadItems, show jdumpItems (x :: y :: ys) ++ ']' :: rest
              = jdumpV x ++ ',' :: (jdumpItems (y :: ys) ++ ']' :: rest) from by
            rw [hsplit]
            simp [List.append_assoc]]
          rw [ihV x (',' :: (jdumpItems (y :: ys) ++ ']' :: rest)) hlens.1 rfl]
          dsimp only
          rw [List.dropWhile_cons, if_neg (by decide)]
          dsimp only
          rw [if_pos (by decide)]
          rw [ihI (y :: ys) rest (by simp) hlens.2]
    · cases ps with
      | nil => exact absurd rfl hne
      | cons hd tl =>
        obtain ⟨k, v⟩ := hd
        cases tl with
        | nil =>
          have hsplit : jdumpPairs [(k, v)] = jsonStrL k ++ ':' :: jdumpV v := rfl
          have hlv : (jdumpV v).length ≤ f := by
            rw [hsplit] at hlen
            simp only [List.length_append, List.length_cons, jsonStrL] at hlen
            omega
          rw [jreadPairs, show jdumpPairs [(k, v)] ++ '\x7d' :: rest
              = '"' :: (jsonEscL k.data ++ '"' :: (':' :: (jdumpV v ++ '\x7d' :: rest))) from by
            rw [hsplit, jsonStrL]
            simp [List.append_assoc]]
          rw [List.dropWhile_cons, if_neg (by decide)]
          dsimp only
          rw [if_pos (by decide)]
          rw [jsonStrL_read k (':' :: (jdumpV v ++ '\x7d' :: rest))]
          dsimp only
          rw [List.dropWhile_cons, if_neg (by decide)]
          dsimp only
          rw [if_pos (by decide)]
          rw [ihV v ('\x7d' :: rest) hlv rfl]
          dsimp only
          rw [List.dropWhile_cons, if_neg (by decide)]
          dsimp only
          rw [if_neg (by decide), if_pos (by decide)]
        | cons q ql =>
          have hsplit : jdumpPairs ((k, v) :: q :: ql)
              = (jsonStrL k ++ ':' :: jdumpV v) ++ ',' :: jdumpPairs (q :: ql) := rfl
          have hlens : (jdumpV v).length ≤ f ∧ (jdumpPairs (q :: ql)).length < f := by
            rw [hsplit] at hlen
            simp only [List.length_append, List.length_cons, jsonStrL] at hlen
            constructor <;> omega
          rw [jreadPairs, show jdumpPairs ((k, v) :: q :: ql) ++ '\x7d' :: rest
              = '"' :: (jsonEscL k.data ++ '"' :: (':' :: (jdumpV v
                  ++ ',' :: (jdumpPairs (q :: ql) ++ '\x7d' :: rest)))) from by
            rw [hsplit, jsonStrL]
            simp [List.append_assoc]]
          rw [List.dropWhile_cons, if_neg (by decide)]
          dsimp only
          rw [if_pos (by decide)]
          rw [jsonStrL_read k (':' :: (jdumpV v ++ ',' :: (jdumpPairs (q :: ql) ++ '\x7d' :: rest)))]
          dsimp only
          rw [List.dropWhile_cons, if_neg (by decide)]
          dsimp only
          rw [if_pos (by decide)]
          rw [ihV v (',' :: (jdumpPairs (q :: ql) ++ '\x7d' :: rest)) hlens.1 rfl]
          dsimp only
          rw [List.dropWhile_cons, if_neg (by decide)]
          dsimp only
          rw [if_pos (by decide)]
          rw [ihP (q :: ql) rest (by simp) hlens.2]

theorem jdumpV_loads (v : JValue) : jsonLoadsL (jdumpV v) = some v := by
  rw [jsonLoadsL]
  have h := (rtAll ((jdumpV v).length + 1)).1 v [] (by omega) rfl
  rw [List.append_nil] at h
  rw [h]
  rfl

theorem jsonDumps_loads (v : JValue) : jsonLoads (jsonDumps v) = some v :=
  jdumpV_loads v

theorem jdumpV_getLast (v : JValue) : ∃ c, (jdumpV v).getLast? = some c ∧ pwsChar c = false := by
  cases v with
  | jnull => exact ⟨'l', rfl, by decide⟩
  | jbool b =>
    cases b with
    | true => exact ⟨'e', rfl, by decide⟩
    | false => exact ⟨'e', rfl, by decide⟩
  | jnum i =>
    obtain ⟨c, t, hct⟩ : ∃ c t, natChars i.natAbs [] = c :: t := by
      rcases h : natChars i.natAbs [] with _ | ⟨c, t⟩
      · exact absurd h (natChars_ne_nil _)
      · exact ⟨c, t, rfl⟩
    have hdig : ∀ x ∈ c :: t, digitCh x = true := by
      rw [← hct]
      exact natChars_digits _
    refine ⟨(c :: t).getLast (by simp), ?_, pws_of_digit (hdig _ (List.getLast_mem _))⟩
    show (intChars i).getLast? = _
    rw [intChars]
    split
    · rw [hct, List.getLast?_cons_cons]
      exact List.getLast?_eq_getLast _ (by simp)
    · rw [hct]
      exact List.getLast?_eq_getLast _ (by simp)
  | jstr s =>
    refine ⟨'"', ?_, by decide⟩
    show (jsonStrL s).getLast? = _
    rw [jsonStrL, show ('"' :: (jsonEscL s.data ++ ['"'])) = ('"' :: jsonEscL s.data) ++ ['"'] from by
      simp]
    rw [List.getLast?_concat]
  | jarr xs =>
    refine ⟨']', ?_, by decide⟩
    show ('[' :: (jdumpItems xs ++ [']'])).getLast? = _
    rw [show ('[' :: (jdumpItems xs ++ [']'])) = ('[' :: jdumpItems xs) ++ [']'] from by simp]
    rw [List.getLast?_concat]
  | jobj kvs =>
    refine ⟨'\x7d', ?_, by decide⟩
    show ('\x7b' :: (jdumpPairs kvs ++ ['\x7d'])).getLast? = _
    rw [show ('\x7b' :: (jdumpPairs kvs ++ ['\x7d'])) = ('\x7b' :: jdumpPairs kvs) ++ ['\x7d'] from by
      simp]
    rw [List.getLast?_concat]

theorem pyStrip_dump (v : JValue) : pyStrip (jdumpV v) = jdumpV v := by
  obtain ⟨c, tl, hct, hpw, _, _⟩ := jdumpV_head v
  obtain ⟨e, hlast, hpwe⟩ := jdumpV_getLast v
  rw [pyStrip]
  have h1 : (jdumpV v).dropWhile pwsChar = jdumpV v := by
    rw [hct, List.dropWhile_cons, if_neg (by simp [hpw])]
  rw [h1]
  have h2 : (jdumpV v).reverse.dropWhile pwsChar = (jdumpV v).reverse := by
    rcases hrev : (jdumpV v).reverse with _ | ⟨c2, t2⟩
    · rfl
    · have hce : c2 = e := by
        have hh := List.head?_reverse (jdumpV v)
        rw [hrev, hlast] at hh
        simpa using hh
      rw [List.dropWhile_cons, if_neg (by rw [hce]; simp [hpwe])]
  rw [h2, List.reverse_reverse]

theorem parse_dump (v : JValue) (hf : fenceFind (jdumpV v) = none) :
    parse_json_threaded (jsonDumps v) = v := by
  have hdata : (jsonDumps v).data = jdumpV v := rfl
  have hpre : parsePreprocessed (jsonDumps v) = jdumpV v := by
    simp only [parsePreprocessed, hdata, hf, pyStrip_dump]
    obtain ⟨c, tl, hct, _, _, hbt⟩ := jdumpV_head v
    rw [hct]
    rw [show startsWithL "```".data (c :: tl) = false from by
      show (('`' == c) && startsWithL "``".data tl) = false
      rw [show ('`' == c) = false from by
        simp only [beq_eq_false_iff_ne] at hbt ⊢
        exact fun h => hbt h.symm]
      rw [Bool.false_and]]
    rw [Bool.false_and]
    simp
  rw [parse_json_threaded, hpre, jdumpV_loads]

/-! ## Claim C8 — idempotence of the response parser -/

/-- A schema-valid strict JSON text whose summary string itself shows a
fenced JSON block once re-serialised: the opening brace of the inner
block is spelled with a unicode escape, so the raw text has no fence to find, while
the re-serialised text shows it to the fence regex verbatim. -/
def c8x : String := "\x7b\"summary\": \"```json \\u007bz\x7d ```\", \"issues\": []\x7d"

/-- Counterexample to claim C8 as stated: `c8x` is valid strict JSON of
the `summary`/`issues` shape, yet re-serialising its parse and parsing
again extracts the fenced block out of the summary string instead of
reproducing the structure: the parse is not idempotent on it. -/
theorem claim_C8_counterexample :
    (∃ v, jsonLoads c8x = some v ∧ hasSummaryIssuesShape v = true) ∧
    parse_json_threaded (jsonDumps (parse_json_threaded c8x)) ≠ parse_json_threaded c8x := by
  refine ⟨⟨.jobj [("summary", .jstr "```json \x7bz\x7d ```"), ("issues", .jarr [])], rfl, rfl⟩, ?_⟩
  intro h
  rw [show parse_json_threaded (jsonDumps (parse_json_threaded c8x))
      = .jobj [("summary", .jstr "\x7bz\x7d"), ("issues", .jarr [])] from rfl,
    show parse_json_threaded c8x
      = .jobj [("summary", .jstr "```json \x7bz\x7d ```"), ("issues", .jarr [])] from rfl] at h
  have h2 : ("\x7bz\x7d" : String) = "```json \x7bz\x7d ```" :=
    congrArg (fun w => match w with
      | JValue.jobj (("summary", JValue.jstr s) :: _) => s
      | _ => "") h
  exact absurd h2 (by decide)

/-- Claim C8, amended: the response parser is idempotent on schema-valid
input whose re-serialisation shows no fenced block: for every text that
is valid strict JSON of the `summary`/`issues` shape, if the fenced-block
search finds nothing in the re-serialised parse (the serialisation can
surface a fence hidden by JSON escapes in the original text, and the
extraction then rewrites it), then parsing the re-serialised text gives
the parse back. -/
theorem claim_C8 (x : String)
    (hschema : ∃ v, jsonLoads x = some v ∧ hasSummaryIssuesShape v = true)
    (hfence : fenceFind (jsonDumps (parse_json_threaded x)).data = none) :
    parse_json_threaded (jsonDumps (parse_json_threaded x)) = parse_json_threaded x :=
  parse_dump (parse_json_threaded x) hfence

/-- Witness: a concrete schema-valid text on which the amended claim C8
applies and round-trips. -/
theorem claim_C8_witness :
    ((∃ v, jsonLoads "\x7b\"summary\":\"ok\",\"issues\":[]\x7d" = some v
        ∧ hasSummaryIssuesShape v = true)
      ∧ fenceFind (jsonDumps (parse_json_threaded "\x7b\"summary\":\"ok\",\"issues\":[]\x7d")).data
          = none)
    ∧ parse_json_threaded
        (jsonDumps (parse_json_threaded "\x7b\"summary\":\"ok\",\"issues\":[]\x7d"))
      = parse_json_threaded "\x7b\"summary\":\"ok\",\"issues\":[]\x7d" :=
  ⟨⟨⟨.jobj [("summary", .jstr "ok"), ("issues", .jarr [])], rfl, rfl⟩, rfl⟩,
    claim_C8 "\x7b\"summary\":\"ok\",\"issues\":[]\x7d"
      ⟨.jobj [("summary", .jstr "ok"), ("issues", .jarr [])], rfl, rfl⟩ rfl⟩
